import Mathlib

/-!
A shallow embedding of the cycling workout data-loading and validation
library (`src/types.ts`, `src/dataLoader.ts`, `src/validators.ts`), together
with theorems settling specification claims about it.

Modelling conventions:
* JavaScript numbers are modelled by `JsNum`: a finite rational or one of
  the non-finite values `NaN`, `Infinity`, `-Infinity`.  Exact rational
  arithmetic replaces IEEE-754 arithmetic; no property in scope depends on
  floating-point rounding.
* Untyped (`unknown`) field values are modelled by `JsVal`; untyped segment
  inputs by `JsSeg`, where `nullish` stands for `null`/`undefined` (property
  access throws) and `prim` for any other non-object value (property access
  yields `undefined`).
* Error and warning message strings are modelled by the structured type
  `Msg`, one constructor per distinct message template in the source,
  carrying the values interpolated into that template.
* The file-system / JSON-parsing wrapper `loadJsonFile` and the HTTP
  transport are external collaborators; loaders are modelled from the
  already-parsed JSON value onward, and `fetchWithRetry` over an oracle
  giving the outcome of each attempt.
-/

set_option allowUnsafeReducibility true in
attribute [semireducible] Rat.add Rat.normalize Rat.maybeNormalize Rat.mul Rat.inv Rat.div Rat.sub Rat.neg

/-- Model of a JavaScript number: a finite rational, or `NaN`, or `±Infinity`. -/
inductive JsNum where
  | fin (q : ℚ)
  | nan
  | posInf
  | negInf
  deriving DecidableEq

/-- JavaScript `<` on numbers (`NaN` compares false with everything). -/
def jlt : JsNum → JsNum → Bool
  | .fin a, .fin b => decide (a < b)
  | .fin _, .posInf => true
  | .negInf, .fin _ => true
  | .negInf, .posInf => true
  | _, _ => false

/-- JavaScript `===` on numbers (`NaN === NaN` is false). -/
def jeqNum : JsNum → JsNum → Bool
  | .fin a, .fin b => decide (a = b)
  | .posInf, .posInf => true
  | .negInf, .negInf => true
  | _, _ => false

/-- JavaScript `<=` on numbers (false whenever `NaN` is involved). -/
def jle (a b : JsNum) : Bool := jlt a b || jeqNum a b

/-- JavaScript `+` on numbers. -/
def jadd : JsNum → JsNum → JsNum
  | .fin a, .fin b => .fin (a + b)
  | .fin _, b => b
  | .nan, _ => .nan
  | .posInf, .fin _ => .posInf
  | .posInf, .posInf => .posInf
  | .posInf, _ => .nan
  | .negInf, .fin _ => .negInf
  | .negInf, .negInf => .negInf
  | .negInf, _ => .nan

/-- An untyped (`unknown`) field value as the validators observe it:
a number, a string, `undefined` (in particular a missing field), or any
other value (`null`, boolean, object, ...). -/
inductive JsVal where
  | num (n : JsNum)
  | str (s : String)
  | undef
  | other
  deriving DecidableEq

/-- The six fields of an untyped segment object; a missing field is `undef`.
Source field names `"Stroke instruction"` and `"Elapsed Time"` contain a
space and are rendered `strokeInstruction` / `elapsedTime` here. -/
structure SegFields where
  Time : JsVal
  Activity : JsVal
  Resistance : JsVal
  Cadence : JsVal
  strokeInstruction : JsVal
  elapsedTime : JsVal
  deriving DecidableEq

/-- An untyped array element, as validators and loaders receive it.
`nullish` is `null` or `undefined` (property access on it throws a
`TypeError`); `prim` is any other non-object value (property access on it
yields `undefined`). -/
inductive JsSeg where
  | nullish
  | prim
  | obj (f : SegFields)
  deriving DecidableEq

/-- The typed record `WorkoutSegment` of `types.ts`. -/
structure WorkoutSegment where
  Time : JsNum
  Activity : String
  Resistance : JsNum
  Cadence : JsNum
  strokeInstruction : String
  elapsedTime : JsNum
  deriving DecidableEq

/-- View a typed segment back as the untyped object it prints as
(used to feed loader output into the validator). -/
def segToJs (s : WorkoutSegment) : JsSeg :=
  .obj ⟨.num s.Time, .str s.Activity, .num s.Resistance, .num s.Cadence,
        .str s.strokeInstruction, .num s.elapsedTime⟩

/-- A parsed top-level JSON value handed to array-consuming functions. -/
inductive JsData where
  | notArray
  | arr (items : List JsSeg)
  deriving DecidableEq

set_option maxHeartbeats 1600000

/-- Structured rendering of every distinct error / warning message template
in `validators.ts`, carrying the values interpolated into the template. -/
inductive Msg where
  | urlEmpty
  | urlBadFormat (url : String)
  | urlBadProtocol (protocol : String)
  | urlInsecure
  | urlDomainDenied (domain : String) (allowed : List String)
  | workoutNotObject
  | titleNotString
  | titleEmpty
  | imageNotString
  | imageUrl (m : Msg)
  | workoutUrlNotString
  | workoutUrl (m : Msg)
  | workoutUrlNotJson
  | videoNotObject
  | subtitleNotString
  | videoFieldNotString
  | videoUrl (m : Msg)
  | videoBadExt
  | segNotObject (i : Nat)
  | timeNotNumber (i : Nat)
  | timeNotFinite (i : Nat)
  | timeTooSmall (i : Nat) (t : ℚ)
  | timeTooBig (i : Nat) (t : ℚ)
  | activityNotString (i : Nat)
  | activityEmpty (i : Nat)
  | activityUnknown (i : Nat) (a : String)
  | resistanceNotNumber (i : Nat)
  | resistanceNotFinite (i : Nat)
  | resistanceTooSmall (i : Nat) (q : ℚ)
  | resistanceTooBig (i : Nat) (q : ℚ)
  | cadenceNotNumber (i : Nat)
  | cadenceNotFinite (i : Nat)
  | cadenceTooSmall (i : Nat) (q : ℚ)
  | cadenceTooBig (i : Nat) (q : ℚ)
  | strokeNotString (i : Nat)
  | elapsedNotNumber (i : Nat)
  | elapsedNotFinite (i : Nat)
  | elapsedNegative (i : Nat) (e : ℚ)
  | elapsedTooBig (i : Nat) (e : ℚ)
  | elapsedMismatch (i : Nat) (actual : ℚ) (expected : JsNum) (prev : JsNum) (t : ℚ)
  | detailsNotArray
  | detailsEmpty
  | noWarmup (a : String)
  | noCooldown (a : String)
  | workoutsNotArray
  | workoutsEmpty
  | atWorkout (i : Nat) (m : Msg)
  | videosNotArray
  | videosEmpty
  | atVideo (i : Nat) (m : Msg)
  deriving DecidableEq

/-- The `ValidationResult` record of `types.ts`. -/
structure ValidationResult where
  valid : Bool
  errors : List Msg
  warnings : List Msg
  deriving DecidableEq

/-- The freshly-initialised result `{ valid: true, errors: [], warnings: [] }`. -/
def emptyResult : ValidationResult := ⟨true, [], []⟩

/-- `result.valid = false; result.errors.push(e)` — the source always pairs
these two statements. -/
def addError (r : ValidationResult) (e : Msg) : ValidationResult :=
  { r with valid := false, errors := r.errors ++ [e] }

/-- `result.warnings.push(w)`. -/
def addWarning (r : ValidationResult) (w : Msg) : ValidationResult :=
  { r with warnings := r.warnings ++ [w] }

/-- `!url || url.trim() === ""`: the string is empty or all whitespace. -/
def isBlank (s : String) : Bool := s.data.all Char.isWhitespace

/-- `s.toLowerCase()` (ASCII case folding suffices for the data in scope). -/
def lowerStr (s : String) : String := ⟨s.data.map Char.toLower⟩

/-- `s.endsWith(sfx)`. -/
def endsWithStr (s sfx : String) : Bool :=
  s.data.drop (s.data.length - sfx.data.length) == sfx.data

/-- Split a character list at the first character satisfying `p`;
`none` when no character satisfies it. -/
def splitAtFirst (p : Char → Bool) : List Char → Option (List Char × List Char)
  | [] => none
  | c :: rest =>
    if p c then some ([], rest)
    else match splitAtFirst p rest with
      | none => none
      | some (a, b) => some (c :: a, b)

/-- The part of the list after its last occurrence of `c`
(the whole list when `c` does not occur). -/
def afterLast (c : Char) (l : List Char) : List Char :=
  (l.reverse.takeWhile (fun d => d ≠ c)).reverse

/-- The two components of a parsed URL that `validateUrl` inspects. -/
structure UrlParts where
  protocol : String
  hostname : String
  deriving DecidableEq

/-- Characters allowed in a URL scheme after its leading letter. -/
def schemeChar (c : Char) : Bool :=
  c.isAlpha || c.isDigit || c == '+' || c == '-' || c == '.'

/-- Model of the platform WHATWG `new URL(...)` constructor, restricted to
what `validateUrl` observes (protocol and hostname) on the plain absolute
URLs this system handles: a scheme, optionally `//` and an authority whose
host is everything after the last `@` and before the first `:`.  The scheme
and host are lowercased as the platform parser does; `none` models the
constructor throwing. -/
def parseUrl (url : String) : Option UrlParts :=
  match splitAtFirst (fun c => c == ':') url.data with
  | none => none
  | some (scheme, rest) =>
    match scheme with
    | [] => none
    | c0 :: _ =>
      if c0.isAlpha && scheme.all schemeChar then
        let protocol := String.mk (scheme.map Char.toLower) ++ ":"
        match rest with
        | '/' :: '/' :: rest2 =>
          let auth := rest2.takeWhile (fun c => c ≠ '/' && c ≠ '?' && c ≠ '#')
          let host := (afterLast '@' auth).takeWhile (fun c => c ≠ ':')
          if host.isEmpty then none
          else some ⟨protocol, String.mk (host.map Char.toLower)⟩
        | _ => some ⟨protocol, ""⟩
      else none

/-- The domain allow-list test of `validateUrl`: the lowercased hostname
equals an allowed domain (lowercased) or ends with `"." + domain`. -/
def hostAllowed (hostname : String) (allowedDomains : List String) : Bool :=
  allowedDomains.any (fun al =>
    lowerStr hostname == lowerStr al ||
    endsWithStr (lowerStr hostname) ("." ++ lowerStr al))

/-- `validateUrl` of `validators.ts` (the optional `allowedDomains`
parameter is `none` when absent). -/
def validateUrl (url : String) (allowedDomains : Option (List String)) :
    ValidationResult :=
  if isBlank url then addError emptyResult .urlEmpty
  else
    match parseUrl url with
    | none => addError emptyResult (.urlBadFormat url)
    | some p =>
      if p.protocol ≠ "http:" ∧ p.protocol ≠ "https:" then
        addError emptyResult (.urlBadProtocol p.protocol)
      else
        let r := if p.protocol = "http:" then addWarning emptyResult .urlInsecure
                 else emptyResult
        match allowedDomains with
        | some ds =>
          if ds.isEmpty then r
          else if hostAllowed p.hostname ds then r
          else addError r (.urlDomainDenied (lowerStr p.hostname) ds)
        | none => r

/-- Domain allow-list for `Image` fields. -/
def IMAGE_DOMAINS : List String :=
  ["amazonaws.com", "github.com", "githubusercontent.com"]

/-- Domain allow-list for `Workout_URL` fields. -/
def WORKOUT_URL_DOMAINS : List String :=
  ["github.com", "githubusercontent.com", "raw.githubusercontent.com"]

/-- Domain allow-list for `Video` fields. -/
def VIDEO_DOMAINS : List String := ["amazonaws.com"]

/-- Recognised video file extensions. -/
def VIDEO_EXTENSIONS : List String := [".mp4", ".webm", ".mov", ".avi"]

/-- The `VALID_ACTIVITIES` whitelist (the misspelled
`"Satnding Jog"` entry is in the source data on purpose). -/
def VALID_ACTIVITIES : List String :=
  ["Warm-up", "Intervals", "Recovery", "Cool-down", "Bonus Interval",
   "Standing Jog", "Satnding Jog", "Winding Streets", "Seated Climb",
   "Sprint", "Hill Climb", "Endurance"]

/-- The `CONSTRAINTS` table of `validators.ts`. -/
def minResistance : ℚ := 1
def maxResistance : ℚ := 20
def minCadence : ℚ := 30
def maxCadence : ℚ := 150
def minTime : ℚ := 1
def maxTime : ℚ := 60
def maxElapsedTime : ℚ := 120

/-- An untyped value handed to `validateWorkout`:
either not an object (including `null`), or an object whose three relevant
fields are as given (`undef` when missing). -/
inductive JsWorkout where
  | notObject
  | obj (Title Image Workout_URL : JsVal)
  deriving DecidableEq

/-- An untyped value handed to `validateVideo`. -/
inductive JsVideo where
  | notObject
  | obj (Title Subtitle Image Video : JsVal)
  deriving DecidableEq

/-- `validateWorkout` of `validators.ts`. -/
def validateWorkout (workout : JsWorkout) : ValidationResult :=
  match workout with
  | .notObject => addError emptyResult .workoutNotObject
  | .obj T I U =>
    let r :=
      match T with
      | .str s => if isBlank s then addError emptyResult .titleEmpty else emptyResult
      | _ => addError emptyResult .titleNotString
    let r :=
      match I with
      | .str s =>
        let ur := validateUrl s (some IMAGE_DOMAINS)
        let r := if ur.valid then r
                 else { r with valid := false,
                               errors := r.errors ++ ur.errors.map .imageUrl }
        { r with warnings := r.warnings ++ ur.warnings.map .imageUrl }
      | _ => addError r .imageNotString
    match U with
    | .str s =>
      let ur := validateUrl s (some WORKOUT_URL_DOMAINS)
      let r := if ur.valid then r
               else { r with valid := false,
                             errors := r.errors ++ ur.errors.map .workoutUrl }
      let r := { r with warnings := r.warnings ++ ur.warnings.map .workoutUrl }
      if !s.isEmpty && !endsWithStr (lowerStr s) ".json" then
        addWarning r .workoutUrlNotJson
      else r
    | _ => addError r .workoutUrlNotString

/-- `validateVideo` of `validators.ts`. -/
def validateVideo (video : JsVideo) : ValidationResult :=
  match video with
  | .notObject => addError emptyResult .videoNotObject
  | .obj T S I V =>
    let r :=
      match T with
      | .str s => if isBlank s then addError emptyResult .titleEmpty else emptyResult
      | _ => addError emptyResult .titleNotString
    let r :=
      match S with
      | .str _ => r
      | _ => addError r .subtitleNotString
    let r :=
      match I with
      | .str s =>
        let ur := validateUrl s (some IMAGE_DOMAINS)
        let r := if ur.valid then r
                 else { r with valid := false,
                               errors := r.errors ++ ur.errors.map .imageUrl }
        { r with warnings := r.warnings ++ ur.warnings.map .imageUrl }
      | _ => addError r .imageNotString
    match V with
    | .str s =>
      let ur := validateUrl s (some VIDEO_DOMAINS)
      let r := if ur.valid then r
               else { r with valid := false,
                             errors := r.errors ++ ur.errors.map .videoUrl }
      let r := { r with warnings := r.warnings ++ ur.warnings.map .videoUrl }
      if !(VIDEO_EXTENSIONS.any (fun ext => endsWithStr (lowerStr s) ext)) then
        addWarning r .videoBadExt
      else r
    | _ => addError r .videoFieldNotString

/-- The `Time` field chain of `validateSegment`. -/
def checkTime (r : ValidationResult) (i : Nat) (v : JsVal) : ValidationResult :=
  match v with
  | .num (.fin t) =>
    if t < minTime then addError r (.timeTooSmall i t)
    else if t > maxTime then addWarning r (.timeTooBig i t)
    else r
  | .num _ => addError r (.timeNotFinite i)
  | _ => addError r (.timeNotNumber i)

/-- The `Activity` field chain of `validateSegment`. -/
def checkActivity (r : ValidationResult) (i : Nat) (v : JsVal) : ValidationResult :=
  match v with
  | .str a =>
    if isBlank a then addError r (.activityEmpty i)
    else if !(VALID_ACTIVITIES.contains a) then addWarning r (.activityUnknown i a)
    else r
  | _ => addError r (.activityNotString i)

/-- The `Resistance` field chain of `validateSegment`. -/
def checkResistance (r : ValidationResult) (i : Nat) (v : JsVal) : ValidationResult :=
  match v with
  | .num (.fin q) =>
    if q < minResistance then addError r (.resistanceTooSmall i q)
    else if q > maxResistance then addError r (.resistanceTooBig i q)
    else r
  | .num _ => addError r (.resistanceNotFinite i)
  | _ => addError r (.resistanceNotNumber i)

/-- The `Cadence` field chain of `validateSegment`. -/
def checkCadence (r : ValidationResult) (i : Nat) (v : JsVal) : ValidationResult :=
  match v with
  | .num (.fin q) =>
    if q < minCadence then addError r (.cadenceTooSmall i q)
    else if q > maxCadence then addError r (.cadenceTooBig i q)
    else r
  | .num _ => addError r (.cadenceNotFinite i)
  | _ => addError r (.cadenceNotNumber i)

/-- The `Stroke instruction` field chain of `validateSegment`. -/
def checkStroke (r : ValidationResult) (i : Nat) (v : JsVal) : ValidationResult :=
  match v with
  | .str _ => r
  | _ => addError r (.strokeNotString i)

/-- The `Elapsed Time` chain of `validateSegment`: note that the
cumulative-consistency comparison sits on the final `else if` branch, so it
runs only when the value is ≤ `maxElapsedTime` (and the `Time` field is a
finite number). -/
def checkElapsed (r : ValidationResult) (i : Nat) (ev tv : JsVal)
    (prev : JsNum) : ValidationResult :=
  match ev with
  | .num (.fin e) =>
    if e < 0 then addError r (.elapsedNegative i e)
    else if e > maxElapsedTime then addWarning r (.elapsedTooBig i e)
    else
      match tv with
      | .num (.fin t) =>
        let expected := jadd prev (.fin t)
        if jeqNum (.fin e) expected then r
        else addError r (.elapsedMismatch i e expected prev t)
      | _ => r
  | .num _ => addError r (.elapsedNotFinite i)
  | _ => addError r (.elapsedNotNumber i)

/-- `validateSegment` of `validators.ts`. -/
def validateSegment (segment : JsSeg) (index : Nat)
    (previousElapsedTime : JsNum) : ValidationResult :=
  match segment with
  | .nullish => addError emptyResult (.segNotObject index)
  | .prim => addError emptyResult (.segNotObject index)
  | .obj f =>
    let r := checkTime emptyResult index f.Time
    let r := checkActivity r index f.Activity
    let r := checkResistance r index f.Resistance
    let r := checkCadence r index f.Cadence
    let r := checkStroke r index f.strokeInstruction
    checkElapsed r index f.elapsedTime f.Time previousElapsedTime

/-- Reading `segment.Activity` on an untyped element: throws (`none`) on a
nullish element, yields `undefined` on a primitive. -/
def segActivityVal : JsSeg → Option JsVal
  | .nullish => none
  | .prim => some .undef
  | .obj f => some f.Activity

/-- The contribution of one element to the running elapsed-time sum of
`validateWorkoutDetails` (`previousElapsedTime += segment.Time`, executed
only when `Time` is a finite number). -/
def timeOf : JsSeg → ℚ
  | .obj f =>
    match f.Time with
    | .num (.fin t) => t
    | _ => 0
  | _ => 0

/-- The per-segment loop of `validateWorkoutDetails`: validate each element,
aggregate validity / errors / warnings, and thread the running sum of the
`Time` fields.  `none` models the `TypeError` thrown by the
`segment.Time` property access on a nullish element. -/
def segLoop : List JsSeg → Nat → ℚ → Option ValidationResult
  | [], _, _ => some ⟨true, [], []⟩
  | s :: rest, i, prev =>
    let sr := validateSegment s i (.fin prev)
    match s with
    | .nullish => none
    | _ =>
      match segLoop rest (i + 1) (prev + timeOf s) with
      | none => none
      | some rr =>
        some ⟨sr.valid && rr.valid, sr.errors ++ rr.errors,
              sr.warnings ++ rr.warnings⟩

/-- `validateWorkoutDetails` of `validators.ts`.  `none` models the
`TypeError` thrown when an array element is `null`/`undefined` (the code
reads `segment.Time` / `firstSegment.Activity` on it). -/
def validateWorkoutDetails (workoutDetails : JsData) : Option ValidationResult :=
  match workoutDetails with
  | .notArray => some (addError emptyResult .detailsNotArray)
  | .arr [] => some (addError emptyResult .detailsEmpty)
  | .arr (s0 :: rest) =>
    match segLoop (s0 :: rest) 0 0 with
    | none => none
    | some r =>
      match segActivityVal s0 with
      | none => none
      | some a0 =>
        let r :=
          match a0 with
          | .str a => if a ≠ "Warm-up" then addWarning r (.noWarmup a) else r
          | _ => r
        match (s0 :: rest).getLast? with
        | none => none
        | some sL =>
          match segActivityVal sL with
          | none => none
          | some aL =>
            match aL with
            | .str a => if a ≠ "Cool-down" then some (addWarning r (.noCooldown a))
                        else some r
            | _ => some r

/-- An untyped value handed to `validateWorkoutsList`. -/
inductive JsWorkoutArr where
  | notArray
  | arr (items : List JsWorkout)
  deriving DecidableEq

/-- An untyped value handed to `validateVideosList`. -/
inductive JsVideoArr where
  | notArray
  | arr (items : List JsVideo)
  deriving DecidableEq

/-- The per-element loop of `validateWorkoutsList`. -/
def wLoop (r : ValidationResult) (i : Nat) : List JsWorkout → ValidationResult
  | [] => r
  | w :: rest =>
    let wr := validateWorkout w
    wLoop ⟨r.valid && wr.valid,
           r.errors ++ wr.errors.map (.atWorkout i),
           r.warnings ++ wr.warnings.map (.atWorkout i)⟩ (i + 1) rest

/-- `validateWorkoutsList` of `validators.ts`. -/
def validateWorkoutsList (workouts : JsWorkoutArr) : ValidationResult :=
  match workouts with
  | .notArray => addError emptyResult .workoutsNotArray
  | .arr items =>
    let r := if items.isEmpty then addWarning emptyResult .workoutsEmpty
             else emptyResult
    wLoop r 0 items

/-- The per-element loop of `validateVideosList`. -/
def vLoop (r : ValidationResult) (i : Nat) : List JsVideo → ValidationResult
  | [] => r
  | v :: rest =>
    let vr := validateVideo v
    vLoop ⟨r.valid && vr.valid,
           r.errors ++ vr.errors.map (.atVideo i),
           r.warnings ++ vr.warnings.map (.atVideo i)⟩ (i + 1) rest

/-- `validateVideosList` of `validators.ts`. -/
def validateVideosList (videos : JsVideoArr) : ValidationResult :=
  match videos with
  | .notArray => addError emptyResult .videosNotArray
  | .arr items =>
    let r := if items.isEmpty then addWarning emptyResult .videosEmpty
             else emptyResult
    vLoop r 0 items

/-- Decidable equality of `Except` results, for evaluating loader outcomes
on concrete inputs. -/
instance {e a : Type} [DecidableEq e] [DecidableEq a] : DecidableEq (Except e a) := fun x y =>
  match x, y with
  | .error u, .error v => if h : u = v then .isTrue (by rw [h]) else .isFalse (by simp [h])
  | .ok u, .ok v => if h : u = v then .isTrue (by rw [h]) else .isFalse (by simp [h])
  | .error _, .ok _ => .isFalse (by simp)
  | .ok _, .error _ => .isFalse (by simp)

/-- Structured rendering of the `DataLoadError` messages thrown by
`loadWorkoutDetails` / `fetchWorkoutDetails`, keeping the segment index and
the field name that the message text interpolates. -/
inductive LoadErr where
  | notArray
  | emptyDetails
  | segNotObject (i : Nat)
  | fieldType (i : Nat) (field : String)
  | fieldValue (i : Nat) (field : String)
  deriving DecidableEq

/-- The segment index interpolated into a `LoadErr` message, when any. -/
def errIndex : LoadErr → Option Nat
  | .notArray => none
  | .emptyDetails => none
  | .segNotObject i => some i
  | .fieldType i _ => some i
  | .fieldValue i _ => some i

/-- The field name interpolated into a `LoadErr` message, when any. -/
def errField : LoadErr → Option String
  | .fieldType _ f => some f
  | .fieldValue _ f => some f
  | _ => none

/-- The per-segment body of the `loadWorkoutDetails` loop
(`dataLoader.ts` lines 253–345). -/
def loadSeg (i : Nat) (s : JsSeg) : Except LoadErr WorkoutSegment :=
  match s with
  | .nullish => .error (.segNotObject i)
  | .prim => .error (.segNotObject i)
  | .obj f =>
    match f.Time with
    | .num (.fin t) =>
      if t ≤ 0 then .error (.fieldValue i "Time")
      else
        match f.Activity with
        | .str a =>
          match f.Resistance with
          | .num (.fin rq) =>
            if rq < 0 ∨ rq > 20 then .error (.fieldValue i "Resistance")
            else
              match f.Cadence with
              | .num (.fin c) =>
                if c < 0 ∨ c > 150 then .error (.fieldValue i "Cadence")
                else
                  match f.strokeInstruction with
                  | .str st =>
                    match f.elapsedTime with
                    | .num (.fin e) =>
                      if e < 0 then .error (.fieldValue i "Elapsed Time")
                      else .ok ⟨.fin t, a, .fin rq, .fin c, st, .fin e⟩
                    | _ => .error (.fieldType i "Elapsed Time")
                  | _ => .error (.fieldType i "Stroke instruction")
              | _ => .error (.fieldType i "Cadence")
          | _ => .error (.fieldType i "Resistance")
        | _ => .error (.fieldType i "Activity")
    | _ => .error (.fieldType i "Time")

/-- The `loadWorkoutDetails` loop over all elements, pushing the typed
segments in order and throwing at the first bad one. -/
def loadSegs (i : Nat) : List JsSeg → Except LoadErr (List WorkoutSegment)
  | [] => .ok []
  | s :: rest =>
    match loadSeg i s with
    | .error e => .error e
    | .ok seg =>
      match loadSegs (i + 1) rest with
      | .error e => .error e
      | .ok segs => .ok (seg :: segs)

/-- `loadWorkoutDetails` of `dataLoader.ts`, modelled from the parsed JSON
value onward (`loadJsonFile` — path resolution, file reading and
`JSON.parse` — is an external collaborator per the system overview). -/
def loadWorkoutDetails (data : JsData) : Except LoadErr (List WorkoutSegment) :=
  match data with
  | .notArray => .error .notArray
  | .arr [] => .error .emptyDetails
  | .arr items => loadSegs 0 items

/-- The per-segment body of the `fetchWorkoutDetails` loop
(`dataLoader.ts` lines 478–541): a looser parallel of `loadSeg` with no
finiteness checks and no range checks (the `Time` test is
`typeof !== "number" || Time <= 0`, a single combined message). -/
def fetchSeg (i : Nat) (s : JsSeg) : Except LoadErr WorkoutSegment :=
  match s with
  | .nullish => .error (.segNotObject i)
  | .prim => .error (.segNotObject i)
  | .obj f =>
    match f.Time with
    | .num t =>
      if jle t (.fin 0) then .error (.fieldType i "Time")
      else
        match f.Activity with
        | .str a =>
          match f.Resistance with
          | .num rq =>
            match f.Cadence with
            | .num c =>
              match f.strokeInstruction with
              | .str st =>
                match f.elapsedTime with
                | .num e => .ok ⟨t, a, rq, c, st, e⟩
                | _ => .error (.fieldType i "Elapsed Time")
              | _ => .error (.fieldType i "Stroke instruction")
            | _ => .error (.fieldType i "Cadence")
          | _ => .error (.fieldType i "Resistance")
        | _ => .error (.fieldType i "Activity")
    | _ => .error (.fieldType i "Time")

/-- The `fetchWorkoutDetails` loop over all elements. -/
def fetchSegs (i : Nat) : List JsSeg → Except LoadErr (List WorkoutSegment)
  | [] => .ok []
  | s :: rest =>
    match fetchSeg i s with
    | .error e => .error e
    | .ok seg =>
      match fetchSegs (i + 1) rest with
      | .error e => .error e
      | .ok segs => .ok (seg :: segs)

/-- The structural-validation part of `fetchWorkoutDetails` of
`dataLoader.ts`, modelled from the parsed JSON value onward (the fetch and
`JSON.parse` are external); note it has no empty-array check. -/
def fetchWorkoutDetails (data : JsData) : Except LoadErr (List WorkoutSegment) :=
  match data with
  | .notArray => .error .notArray
  | .arr items => fetchSegs 0 items

/-- `getCurrentSegment` of `dataLoader.ts`. -/
def getCurrentSegment (segments : List WorkoutSegment) (elapsedMinutes : JsNum) :
    Option WorkoutSegment :=
  match segments with
  | [] => none
  | s :: rest =>
    if jlt elapsedMinutes (.fin 0) then some s
    else (s :: rest).find? (fun seg => jle elapsedMinutes seg.elapsedTime)

/-- Outcome of one fetch attempt, as produced by the environment:
a 2xx response body, a non-2xx HTTP status (the code turns it into a
`NetworkError` carrying that status), or any other failure — timeout,
network error — with no status code. -/
inductive AttemptResult where
  | ok (body : String)
  | httpErr (status : Nat)
  | netFail
  deriving DecidableEq

/-- The non-retriable status list of `fetchWithRetry`. -/
def nonRetriable (s : Nat) : Bool :=
  s == 400 || s == 401 || s == 403 || s == 404 || s == 405 || s == 422

/-- An attempt outcome that `fetchWithRetry` retries on. -/
def retriableFail : AttemptResult → Bool
  | .ok _ => false
  | .httpErr s => !nonRetriable s
  | .netFail => true

/-- How a `fetchWithRetry` call ends: the response body; an immediate
`NetworkError` carrying a non-retriable HTTP status; or the final
`NetworkError` (`Failed after N attempts`) wrapping the last failure. -/
inductive FetchOutcome where
  | success (body : String)
  | httpError (status : Nat)
  | exhausted (last : Option AttemptResult)
  deriving DecidableEq

/-- The attempt loop of `fetchWithRetry`, over an `oracle` giving each
attempt's outcome; returns the outcome and the number of attempts made.
`attempt` is the current attempt index, `remaining` the number of attempts
still allowed, `last` the last failure seen. -/
def fetchGo (oracle : Nat → AttemptResult) :
    Nat → Nat → Option AttemptResult → FetchOutcome × Nat
  | attempt, 0, last => (.exhausted last, attempt)
  | attempt, remaining + 1, _ =>
    match oracle attempt with
    | .ok body => (.success body, attempt + 1)
    | .httpErr s =>
      if nonRetriable s then (.httpError s, attempt + 1)
      else fetchGo oracle (attempt + 1) remaining (some (.httpErr s))
    | .netFail => fetchGo oracle (attempt + 1) remaining (some .netFail)

/-- The retry behaviour of `fetchWithRetry` of `dataLoader.ts`
(`for (attempt = 0; attempt <= retries; attempt++)`, so `retries + 1`
attempts are allowed), abstracted over an oracle of attempt outcomes. -/
def fetchWithRetry (oracle : Nat → AttemptResult) (retries : Nat) :
    FetchOutcome × Nat :=
  fetchGo oracle 0 (retries + 1) none

/-- Pure error part of the `Time` chain of `validateSegment`. -/
def timeErrs (i : Nat) : JsVal → List Msg
  | .num (.fin t) => if t < minTime then [.timeTooSmall i t] else []
  | .num _ => [.timeNotFinite i]
  | _ => [.timeNotNumber i]

/-- Pure warning part of the `Time` chain of `validateSegment`. -/
def timeWarns (i : Nat) : JsVal → List Msg
  | .num (.fin t) =>
    if t < minTime then [] else if t > maxTime then [.timeTooBig i t] else []
  | _ => []

/-- Pure error part of the `Activity` chain of `validateSegment`. -/
def actErrs (i : Nat) : JsVal → List Msg
  | .str a => if isBlank a then [.activityEmpty i] else []
  | _ => [.activityNotString i]

/-- Pure warning part of the `Activity` chain of `validateSegment`. -/
def actWarns (i : Nat) : JsVal → List Msg
  | .str a =>
    if isBlank a then []
    else if !(VALID_ACTIVITIES.contains a) then [.activityUnknown i a] else []
  | _ => []

/-- Pure error part of the `Resistance` chain of `validateSegment`. -/
def resErrs (i : Nat) : JsVal → List Msg
  | .num (.fin q) =>
    if q < minResistance then [.resistanceTooSmall i q]
    else if q > maxResistance then [.resistanceTooBig i q]
    else []
  | .num _ => [.resistanceNotFinite i]
  | _ => [.resistanceNotNumber i]

/-- Pure error part of the `Cadence` chain of `validateSegment`. -/
def cadErrs (i : Nat) : JsVal → List Msg
  | .num (.fin q) =>
    if q < minCadence then [.cadenceTooSmall i q]
    else if q > maxCadence then [.cadenceTooBig i q]
    else []
  | .num _ => [.cadenceNotFinite i]
  | _ => [.cadenceNotNumber i]

/-- Pure error part of the `Stroke instruction` chain of `validateSegment`. -/
def strokeErrs (i : Nat) : JsVal → List Msg
  | .str _ => []
  | _ => [.strokeNotString i]

/-- Pure error part of the `Elapsed Time` chain of `validateSegment`. -/
def elapsedErrs (i : Nat) (ev tv : JsVal) (prev : JsNum) : List Msg
 :=
  match ev with
  | .num (.fin e) =>
    if e < 0 then [.elapsedNegative i e]
    else if e > maxElapsedTime then []
    else
      match tv with
      | .num (.fin t) =>
        if jeqNum (.fin e) (jadd prev (.fin t)) then []
        else [.elapsedMismatch i e (jadd prev (.fin t)) prev t]
      | _ => []
  | .num _ => [.elapsedNotFinite i]
  | _ => [.elapsedNotNumber i]

/-- Pure warning part of the `Elapsed Time` chain of `validateSegment`. -/
def elapsedWarns (i : Nat) (ev : JsVal) : List Msg :=
  match ev with
  | .num (.fin e) =>
    if e < 0 then [] else if e > maxElapsedTime then [.elapsedTooBig i e] else []
  | _ => []

/-- All errors of `validateSegment` on an object, in push order. -/
def segErrs (i : Nat) (f : SegFields) (prev : JsNum) : List Msg :=
  timeErrs i f.Time ++ actErrs i f.Activity ++ resErrs i f.Resistance ++
    cadErrs i f.Cadence ++ strokeErrs i f.strokeInstruction ++
    elapsedErrs i f.elapsedTime f.Time prev

/-- All warnings of `validateSegment` on an object, in push order. -/
def segWarns (i : Nat) (f : SegFields) : List Msg :=
  timeWarns i f.Time ++ actWarns i f.Activity ++ elapsedWarns i f.elapsedTime

/-- The error lists produced by the `validateWorkoutDetails` loop, one
sub-list per element, threading the running `Time` sum like the loop does. -/
def errsConcat : List JsSeg → Nat → ℚ → List Msg
  | [], _, _ => []
  | s :: rest, i, prev =>
    (validateSegment s i (.fin prev)).errors ++
      errsConcat rest (i + 1) (prev + timeOf s)

/-- No element of the list is `null`/`undefined` (the condition under which
`validateWorkoutDetails` runs to completion instead of throwing). -/
def noNullish (items : List JsSeg) : Prop := ∀ s ∈ items, s ≠ JsSeg.nullish

/-- The conditions under which `loadSeg` accepts a segment, read off its
chain of throws. -/
def segOkL (s : JsSeg) : Bool :=
  match s with
  | .obj f =>
    (match f.Time with | .num (.fin t) => !decide (t ≤ 0) | _ => false) &&
    (match f.Activity with | .str _ => true | _ => false) &&
    (match f.Resistance with
     | .num (.fin q) => !decide (q < 0 ∨ q > 20) | _ => false) &&
    (match f.Cadence with
     | .num (.fin c) => !decide (c < 0 ∨ c > 150) | _ => false) &&
    (match f.strokeInstruction with | .str _ => true | _ => false) &&
    (match f.elapsedTime with | .num (.fin e) => !decide (e < 0) | _ => false)
  | _ => false

/-- The numeric bounds every segment returned by `loadSeg` satisfies. -/
def baseOk (s : WorkoutSegment) : Prop :=
  (∃ t, s.Time = .fin t ∧ 0 < t) ∧
  (∃ q, s.Resistance = .fin q ∧ 0 ≤ q ∧ q ≤ 20) ∧
  (∃ c, s.Cadence = .fin c ∧ 0 ≤ c ∧ c ≤ 150) ∧
  (∃ e, s.elapsedTime = .fin e ∧ 0 ≤ e)

/-- The extra conditions (beyond being accepted by the loader) under which
the validator finds no errors: `Time ≥ 1`, non-blank `Activity`,
`Resistance ≥ 1`, `Cadence ≥ 30`, and each `Elapsed Time` equal to the
running sum of the `Time` fields starting from `p`. -/
def strictOk (p : ℚ) : List WorkoutSegment → Prop
  | [] => True
  | s :: rest =>
    match s.Time with
    | .fin t =>
      1 ≤ t ∧
      (match s.Resistance with | .fin q => 1 ≤ q | _ => False) ∧
      (match s.Cadence with | .fin c => 30 ≤ c | _ => False) ∧
      isBlank s.Activity = false ∧
      s.elapsedTime = .fin (p + t) ∧
      strictOk (p + t) rest
    | _ => False

/-- Whether a message is one of the four `Resistance` error messages of
`validateSegment`. -/
def isResMsg : Msg → Bool
  | .resistanceNotNumber _ => true
  | .resistanceNotFinite _ => true
  | .resistanceTooSmall _ _ => true
  | .resistanceTooBig _ _ => true
  | _ => false

/-- Sum of the (finite) `Time` fields of a list of untyped elements: the
`previousElapsedTime` accumulated by the `validateWorkoutDetails` loop over
that prefix. -/
def sumTimes : List JsSeg → ℚ
  | [] => 0
  | s :: rest => timeOf s + sumTimes rest

/-- `(l ++ m).isEmpty` is the conjunction of the two emptiness tests. -/
theorem isEmpty_append {α : Type} (l m : List α) :
    (l ++ m).isEmpty = (l.isEmpty && m.isEmpty) := by
  cases l <;> simp [List.isEmpty]

/-- The invariant every validator maintains: `valid` is true exactly when
no error has been pushed. -/
def resInv (r : ValidationResult) : Prop := r.valid = r.errors.isEmpty

theorem resInv_empty : resInv emptyResult := by simp [resInv, emptyResult]

theorem resInv_addError (r : ValidationResult) (e : Msg) : resInv (addError r e) := by
  simp [resInv, addError, isEmpty_append]

theorem resInv_addWarning (r : ValidationResult) (w : Msg) (h : resInv r) :
    resInv (addWarning r w) := by
  simpa [resInv, addWarning] using h

theorem checkTime_spec (r : ValidationResult) (i : Nat) (v : JsVal) :
    checkTime r i v = ⟨r.valid && (timeErrs i v).isEmpty,
      r.errors ++ timeErrs i v, r.warnings ++ timeWarns i v⟩ := by
  rcases v with (q | _ | _ | _) | s | _ | _ <;>
      simp [checkTime, timeErrs, timeWarns, addError, addWarning] <;>
    split_ifs <;> simp [addError, addWarning]

theorem checkActivity_spec (r : ValidationResult) (i : Nat) (v : JsVal) :
    checkActivity r i v = ⟨r.valid && (actErrs i v).isEmpty,
      r.errors ++ actErrs i v, r.warnings ++ actWarns i v⟩ := by
  rcases v with n | s | _ | _ <;>
      simp [checkActivity, actErrs, actWarns, addError, addWarning] <;>
    split_ifs <;> simp [addError, addWarning]

theorem checkResistance_spec (r : ValidationResult) (i : Nat) (v : JsVal) :
    checkResistance r i v = ⟨r.valid && (resErrs i v).isEmpty,
      r.errors ++ resErrs i v, r.warnings⟩ := by
  rcases v with (q | _ | _ | _) | s | _ | _ <;>
      simp [checkResistance, resErrs, addError] <;>
    split_ifs <;> simp [addError]

theorem checkCadence_spec (r : ValidationResult) (i : Nat) (v : JsVal) :
    checkCadence r i v = ⟨r.valid && (cadErrs i v).isEmpty,
      r.errors ++ cadErrs i v, r.warnings⟩ := by
  rcases v with (q | _ | _ | _) | s | _ | _ <;>
      simp [checkCadence, cadErrs, addError] <;>
    split_ifs <;> simp [addError]

theorem checkStroke_spec (r : ValidationResult) (i : Nat) (v : JsVal) :
    checkStroke r i v = ⟨r.valid && (strokeErrs i v).isEmpty,
      r.errors ++ strokeErrs i v, r.warnings⟩ := by
  rcases v with n | s | _ | _ <;> simp [checkStroke, strokeErrs, addError]

theorem checkElapsed_spec (r : ValidationResult) (i : Nat) (ev tv : JsVal)
    (prev : JsNum) :
    checkElapsed r i ev tv prev = ⟨r.valid && (elapsedErrs i ev tv prev).isEmpty,
      r.errors ++ elapsedErrs i ev tv prev, r.warnings ++ elapsedWarns i ev⟩ := by
  rcases ev with (q | _ | _ | _) | s | _ | _ <;>
      simp [checkElapsed, elapsedErrs, elapsedWarns, addError, addWarning] <;>
    split_ifs <;>
    rcases tv with (t | _ | _ | _) | s2 | _ | _ <;>
      simp [addError, addWarning] <;> split_ifs <;> simp [addError]

theorem validateSegment_obj (f : SegFields) (i : Nat) (prev : JsNum) :
    validateSegment (.obj f) i prev =
      ⟨(segErrs i f prev).isEmpty, segErrs i f prev, segWarns i f⟩ := by
  simp [validateSegment, checkTime_spec, checkActivity_spec, checkResistance_spec,
        checkCadence_spec, checkStroke_spec, checkElapsed_spec, segErrs, segWarns,
        emptyResult, isEmpty_append, List.append_assoc, Bool.and_assoc]

theorem resInv_validateSegment (s : JsSeg) (i : Nat) (prev : JsNum) :
    resInv (validateSegment s i prev) := by
  cases s with
  | nullish => exact resInv_addError _ _
  | prim => exact resInv_addError _ _
  | obj f => simp [resInv, validateSegment_obj]

theorem timeErrs_noRes (i : Nat) (v : JsVal) : (timeErrs i v).any isResMsg = false := by
  rcases v with (x | _ | _ | _) | s | _ | _ <;> simp only [timeErrs] <;>
    (try split_ifs) <;> rfl

theorem actErrs_noRes (i : Nat) (v : JsVal) : (actErrs i v).any isResMsg = false := by
  rcases v with n | s | _ | _ <;> simp only [actErrs] <;> (try split_ifs) <;> rfl

theorem cadErrs_noRes (i : Nat) (v : JsVal) : (cadErrs i v).any isResMsg = false := by
  rcases v with (x | _ | _ | _) | s | _ | _ <;> simp only [cadErrs] <;>
    (try split_ifs) <;> rfl

theorem strokeErrs_noRes (i : Nat) (v : JsVal) :
    (strokeErrs i v).any isResMsg = false := by
  rcases v with n | s | _ | _ <;> rfl

theorem elapsedErrs_noRes (i : Nat) (ev tv : JsVal) (prev : JsNum) :
    (elapsedErrs i ev tv prev).any isResMsg = false := by
  rcases ev with (x | _ | _ | _) | s | _ | _ <;> simp only [elapsedErrs] <;>
    (try split_ifs) <;> (try rfl)
  all_goals
    rcases tv with (t | _ | _ | _) | s2 | _ | _ <;> dsimp only <;>
      (try split_ifs) <;> rfl

/-- Claim C7: for a segment whose `Resistance` is a finite number,
`validateSegment` pushes a `Resistance` error — and hence returns an invalid
result — exactly when the value lies outside `[minResistance, maxResistance]`
= [1, 20] (both boundaries inclusive). -/
theorem c7_resistance_range (f : SegFields) (i : Nat) (prev : JsNum) (q : ℚ)
    (hr : f.Resistance = .num (.fin q)) :
    ((validateSegment (.obj f) i prev).errors.any isResMsg = true ↔
      (q < minResistance ∨ maxResistance < q)) ∧
    ((q < minResistance ∨ maxResistance < q) →
      (validateSegment (.obj f) i prev).valid = false) := by
  have hres : ((validateSegment (.obj f) i prev).errors.any isResMsg) =
      (resErrs i f.Resistance).any isResMsg := by
    simp [validateSegment_obj, segErrs, List.any_append, timeErrs_noRes,
          actErrs_noRes, cadErrs_noRes, strokeErrs_noRes, elapsedErrs_noRes]
  constructor
  · rw [hres, hr]
    simp only [resErrs]
    split_ifs with h1 h2
    · simp [isResMsg, h1]
    · simp [isResMsg, h2]
    · simp
      exact ⟨not_lt.mp h1, not_lt.mp h2⟩
  · intro hout
    have hany : (validateSegment (.obj f) i prev).errors.any isResMsg = true := by
      rw [hres, hr]
      simp only [resErrs]
      split_ifs with h1 h2
      · rfl
      · rfl
      · rcases hout with h | h
        · exact absurd h h1
        · exact absurd h h2
    rcases List.any_eq_true.mp hany with ⟨m, hm, _⟩
    have hinv := resInv_validateSegment (.obj f) i prev
    rw [resInv] at hinv
    rw [hinv]
    cases herr : (validateSegment (.obj f) i prev).errors with
    | nil => rw [herr] at hm; cases hm
    | cons a l => rfl

/-- Witness for C7 at `Resistance = 21` (fails) — instantiating the theorem
at a concrete segment. -/
theorem c7_witness :
    (validateSegment (.obj ⟨.num (.fin 1), .str "Warm-up", .num (.fin 21),
        .num (.fin 90), .str "", .num (.fin 1)⟩) 0 (.fin 0)).valid = false :=
  (c7_resistance_range ⟨.num (.fin 1), .str "Warm-up", .num (.fin 21),
      .num (.fin 90), .str "", .num (.fin 1)⟩ 0 (.fin 0) 21 rfl).2
    (Or.inr (by norm_num [maxResistance]))

/-- Claim C1 (amended): for a segment whose `Time` is a finite number and
whose `Elapsed Time` is a finite non-negative number, `validateSegment`
warns when `Elapsed Time` exceeds `maxElapsedTime` = 120; and whenever
`Elapsed Time` is at most 120 and differs (by JavaScript `===`) from
`previousElapsedTime + Time`, it returns an invalid result containing an
error that cites the expected value `previousElapsedTime + Time`.  (When
`Elapsed Time` exceeds 120 the `else if` chain stops at the warning and the
consistency comparison is skipped.) -/
theorem c1_elapsed_consistency (f : SegFields) (i : Nat) (prev : JsNum)
    (t e : ℚ) (ht : f.Time = .num (.fin t)) (he : f.elapsedTime = .num (.fin e))
    (he0 : 0 ≤ e) :
    (maxElapsedTime < e →
      Msg.elapsedTooBig i e ∈ (validateSegment (.obj f) i prev).warnings) ∧
    (e ≤ maxElapsedTime → jeqNum (.fin e) (jadd prev (.fin t)) = false →
      (validateSegment (.obj f) i prev).valid = false ∧
      Msg.elapsedMismatch i e (jadd prev (.fin t)) prev t ∈
        (validateSegment (.obj f) i prev).errors) := by
  constructor
  · intro hgt
    rw [validateSegment_obj]
    simp [segWarns, elapsedWarns, he, not_lt.2 he0, hgt]
  · intro hle hne
    have herr : elapsedErrs i f.elapsedTime f.Time prev =
        [.elapsedMismatch i e (jadd prev (.fin t)) prev t] := by
      simp [elapsedErrs, he, ht, not_lt.2 he0, not_lt.2 hle, hne]
    constructor
    · rw [validateSegment_obj]
      simp [segErrs, isEmpty_append, herr]
    · rw [validateSegment_obj]
      simp [segErrs, herr]

/-- Counterexample to C1 as stated: a segment with valid fields,
`Time = 1`, `Elapsed Time = 121` (finite, non-negative) and
`previousElapsedTime = 0` has `Elapsed Time ≠ previousElapsedTime + Time`,
yet `validateSegment` returns a *valid* result (only a warning): the
consistency check is skipped for values above 120. -/
theorem c1_counterexample :
    validateSegment (.obj ⟨.num (.fin 1), .str "Warm-up", .num (.fin 10),
        .num (.fin 90), .str "", .num (.fin 121)⟩) 0 (.fin 0)
      = ⟨true, [], [.elapsedTooBig 0 121]⟩ ∧
    jeqNum (.fin 121) (jadd (.fin 0) (.fin 1)) = false := by decide

/-- Witness for the amended C1 at `Elapsed Time = 50`, `Time = 1`,
`previousElapsedTime = 0`. -/
theorem c1_witness :
    (validateSegment (.obj ⟨.num (.fin 1), .str "Warm-up", .num (.fin 10),
        .num (.fin 90), .str "", .num (.fin 50)⟩) 0 (.fin 0)).valid = false ∧
    Msg.elapsedMismatch 0 50 (jadd (.fin 0) (.fin 1)) (.fin 0) 1 ∈
      (validateSegment (.obj ⟨.num (.fin 1), .str "Warm-up", .num (.fin 10),
        .num (.fin 90), .str "", .num (.fin 50)⟩) 0 (.fin 0)).errors :=
  (c1_elapsed_consistency ⟨.num (.fin 1), .str "Warm-up", .num (.fin 10),
      .num (.fin 90), .str "", .num (.fin 50)⟩ 0 (.fin 0) 1 50 rfl rfl
      (by norm_num)).2 (by norm_num [maxElapsedTime]) (by decide)

/-- Strict JavaScript `<` in one direction refutes `<=` in the other. -/
theorem jlt_jle (a b : JsNum) (h : jlt a b = true) : jle b a = false := by
  rcases a with x | _ | _ | _ <;> rcases b with y | _ | _ | _ <;>
    simp_all [jlt, jle, jeqNum]
  constructor
  · linarith
  · rintro rfl
    exact lt_irrefl _ h

/-- Claim C5: `getCurrentSegment` returns null on an empty sequence; returns
the first segment for any negative elapsed time; otherwise returns the first
segment (in sequence order) whose `Elapsed Time` is ≥ `elapsedMinutes`, and
null when `elapsedMinutes` exceeds every segment's `Elapsed Time` — with the
claim's three concrete examples. -/
theorem c5_getCurrentSegment :
    (∀ e, getCurrentSegment [] e = none) ∧
    (∀ segs e, segs ≠ [] → jlt e (.fin 0) = true →
      getCurrentSegment segs e = segs.head?) ∧
    (∀ segs e, jlt e (.fin 0) = false →
      getCurrentSegment segs e = segs.find? (fun s => jle e s.elapsedTime)) ∧
    (∀ segs e, jlt e (.fin 0) = false →
      (∀ s ∈ segs, jlt s.elapsedTime e = true) →
      getCurrentSegment segs e = none) ∧
    getCurrentSegment [⟨.fin 5, "A", .fin 10, .fin 90, "", .fin 5⟩,
        ⟨.fin 5, "B", .fin 10, .fin 90, "", .fin 10⟩] (.fin 7)
      = some ⟨.fin 5, "B", .fin 10, .fin 90, "", .fin 10⟩ ∧
    getCurrentSegment [⟨.fin 5, "A", .fin 10, .fin 90, "", .fin 5⟩,
        ⟨.fin 5, "B", .fin 10, .fin 90, "", .fin 10⟩] (.fin 15) = none ∧
    getCurrentSegment [⟨.fin 5, "A", .fin 10, .fin 90, "", .fin 5⟩,
        ⟨.fin 5, "B", .fin 10, .fin 90, "", .fin 10⟩] (.fin (-1))
      = some ⟨.fin 5, "A", .fin 10, .fin 90, "", .fin 5⟩ := by
  have h3 : ∀ segs e, jlt e (.fin 0) = false →
      getCurrentSegment segs e = segs.find? (fun s => jle e s.elapsedTime) := by
    intro segs e he
    cases segs with
    | nil => rfl
    | cons s rest => simp [getCurrentSegment, he]
  refine ⟨fun e => rfl, ?_, h3, ?_, by decide, by decide, by decide⟩
  · intro segs e hne he
    cases segs with
    | nil => exact absurd rfl hne
    | cons s rest => simp [getCurrentSegment, he]
  · intro segs e he hall
    rw [h3 segs e he]
    apply List.find?_eq_none.mpr
    intro s hs
    simp [jlt_jle _ _ (hall s hs)]

/-- Witness for C5, instantiating the negative-input clause at a concrete
one-segment sequence. -/
theorem c5_witness :
    getCurrentSegment [⟨.fin 5, "A", .fin 10, .fin 90, "", .fin 5⟩] (.fin (-1))
      = [(⟨.fin 5, "A", .fin 10, .fin 90, "", .fin 5⟩ : WorkoutSegment)].head? :=
  c5_getCurrentSegment.2.1 [⟨.fin 5, "A", .fin 10, .fin 90, "", .fin 5⟩]
    (.fin (-1)) (by decide) (by decide)

theorem fetchGo_count (oracle : Nat → AttemptResult) (rem attempt : Nat)
    (last : Option AttemptResult) :
    (fetchGo oracle attempt rem last).2 ≤ attempt + rem := by
  induction rem generalizing attempt last with
  | zero => simp [fetchGo]
  | succ r ih =>
    simp only [fetchGo]
    cases oracle attempt with
    | ok b => dsimp only; omega
    | httpErr s =>
      dsimp only
      split_ifs with h
      · dsimp only; omega
      · have := ih (attempt + 1) (some (.httpErr s)); omega
    | netFail =>
      dsimp only
      have := ih (attempt + 1) (some .netFail); omega

theorem fetchGo_nonRetriable (oracle : Nat → AttemptResult) (rem : Nat)
    (k : Nat) (s : Nat) (attempt : Nat) (last : Option AttemptResult)
    (hk1 : attempt ≤ k) (hk2 : k < attempt + rem)
    (hpre : ∀ j, attempt ≤ j → j < k → retriableFail (oracle j) = true)
    (ho : oracle k = .httpErr s) (hs : nonRetriable s = true) :
    fetchGo oracle attempt rem last = (.httpError s, k + 1) := by
  revert hk1 hk2 hpre
  induction rem generalizing attempt last with
  | zero => intro hk1 hk2 hpre; omega
  | succ r ih =>
    intro hk1 hk2 hpre
    simp only [fetchGo]
    by_cases hak : attempt = k
    · subst hak
      rw [ho]
      simp [hs]
    · have hlt : attempt < k := lt_of_le_of_ne hk1 hak
      have hthis := hpre attempt le_rfl hlt
      cases hoa : oracle attempt with
      | ok b => rw [hoa] at hthis; simp [retriableFail] at hthis
      | httpErr s2 =>
        rw [hoa] at hthis
        simp only [retriableFail, Bool.not_eq_true'] at hthis
        simp only [hthis, if_false, Bool.false_eq_true]
        exact ih (attempt + 1) (some (.httpErr s2)) (by omega) (by omega)
          (fun j hj1 hj2 => hpre j (by omega) hj2)
      | netFail =>
        exact ih (attempt + 1) (some .netFail) (by omega) (by omega)
          (fun j hj1 hj2 => hpre j (by omega) hj2)

theorem fetchGo_exhaust (oracle : Nat → AttemptResult) (rem : Nat)
    (attempt : Nat) (last : Option AttemptResult) (hrem : 0 < rem)
    (hall : ∀ j, attempt ≤ j → j < attempt + rem → retriableFail (oracle j) = true) :
    fetchGo oracle attempt rem last =
      (.exhausted (some (oracle (attempt + rem - 1))), attempt + rem) := by
  revert hall
  induction rem generalizing attempt last with
  | zero => omega
  | succ r ih =>
    intro hall
    simp only [fetchGo]
    have hthis := hall attempt le_rfl (by omega)
    cases hoa : oracle attempt with
    | ok b => rw [hoa] at hthis; simp [retriableFail] at hthis
    | httpErr s =>
      rw [hoa] at hthis
      simp only [retriableFail, Bool.not_eq_true'] at hthis
      simp only [hthis, if_false, Bool.false_eq_true]
      cases r with
      | zero =>
        simp only [fetchGo]
        rw [show attempt + 1 - 1 = attempt by omega, hoa]
      | succ r2 =>
        rw [ih (attempt + 1) (some (.httpErr s)) (by omega)
          (fun j hj1 hj2 => hall j (by omega) (by omega))]
        rw [show attempt + 1 + (r2 + 1) - 1 = attempt + (r2 + 1 + 1) - 1 by omega,
            show attempt + 1 + (r2 + 1) = attempt + (r2 + 1 + 1) by omega]
    | netFail =>
      rw [hoa] at hthis
      cases r with
      | zero =>
        simp only [fetchGo]
        rw [show attempt + 1 - 1 = attempt by omega, hoa]
      | succ r2 =>
        rw [ih (attempt + 1) (some .netFail) (by omega)
          (fun j hj1 hj2 => hall j (by omega) (by omega))]
        rw [show attempt + 1 + (r2 + 1) - 1 = attempt + (r2 + 1 + 1) - 1 by omega,
            show attempt + 1 + (r2 + 1) = attempt + (r2 + 1 + 1) by omega]

/-- Claim C4: `fetchWithRetry` makes at most `retries + 1` attempts; an
attempt returning a status in {400, 401, 403, 404, 405, 422} (after any run
of retriable failures) aborts immediately with a `NetworkError` carrying
that status — in particular an endpoint always returning such a status is
attempted exactly once — and when every allowed attempt fails retriably,
all `retries + 1` attempts are made and the final `NetworkError` wraps the
last failure. -/
theorem c4_fetchWithRetry (oracle : Nat → AttemptResult) (retries : Nat) :
    (fetchWithRetry oracle retries).2 ≤ retries + 1 ∧
    (∀ s, nonRetriable s = true → (∀ j, oracle j = .httpErr s) →
      fetchWithRetry oracle retries = (.httpError s, 1)) ∧
    (∀ k s, k ≤ retries →
      (∀ j, j < k → retriableFail (oracle j) = true) →
      oracle k = .httpErr s → nonRetriable s = true →
      fetchWithRetry oracle retries = (.httpError s, k + 1)) ∧
    ((∀ j, j ≤ retries → retriableFail (oracle j) = true) →
      fetchWithRetry oracle retries =
        (.exhausted (some (oracle retries)), retries + 1)) := by
  refine ⟨?_, ?_, ?_, ?_⟩
  · simpa using fetchGo_count oracle (retries + 1) 0 none
  · intro s hs hall
    exact fetchGo_nonRetriable oracle (retries + 1) 0 s 0 none (le_refl 0)
      (by omega) (fun j hj1 hj2 => absurd hj2 (by omega)) (hall 0) hs
  · intro k s hk hpre ho hs
    exact fetchGo_nonRetriable oracle (retries + 1) k s 0 none (by omega)
      (by omega) (fun j hj1 hj2 => hpre j hj2) ho hs
  · intro hall
    have := fetchGo_exhaust oracle (retries + 1) 0 none (by omega)
      (fun j hj1 hj2 => hall j (by omega))
    simpa using this

/-- Witness for C4: an endpoint that always returns HTTP 404 is attempted
exactly once and surfaces the 404. -/
theorem c4_witness :
    fetchWithRetry (fun _ => .httpErr 404) 3 = (.httpError 404, 1) :=
  (c4_fetchWithRetry (fun _ => .httpErr 404) 3).2.1 404 (by decide)
    (fun j => rfl)

theorem splitAtFirst_mem (p : Char → Bool) (l : List Char) (a b : List Char)
    (h : splitAtFirst p l = some (a, b)) : ∃ c ∈ l, p c = true := by
  induction l generalizing a b with
  | nil => simp [splitAtFirst] at h
  | cons c rest ih =>
    simp only [splitAtFirst] at h
    split_ifs at h with hc
    · exact ⟨c, List.mem_cons_self c rest, hc⟩
    · cases hsp : splitAtFirst p rest with
      | none => rw [hsp] at h; cases h
      | some ab =>
        rcases ab with ⟨a2, b2⟩
        rcases ih a2 b2 hsp with ⟨d, hd, hpd⟩
        exact ⟨d, List.mem_cons_of_mem c hd, hpd⟩

theorem parseUrl_not_blank (url : String) (p : UrlParts)
    (h : parseUrl url = some p) : isBlank url = false := by
  unfold parseUrl at h
  cases hsp : splitAtFirst (fun c => c == ':') url.data with
  | none => rw [hsp] at h; cases h
  | some ab =>
    rcases ab with ⟨scheme, rest⟩
    rcases splitAtFirst_mem _ _ _ _ hsp with ⟨c, hc, hpc⟩
    have hcc : c = ':' := by simpa using hpc
    subst hcc
    unfold isBlank
    cases hb : url.data.all Char.isWhitespace
    · rfl
    · exfalso
      have := List.all_eq_true.mp hb ':' hc
      simpa using this

/-- Claim C6: `validateUrl` fails on a blank string, on a string the URL
parser rejects, and on any scheme other than http/https (concretely,
`ftp://x.com` fails with a protocol error); an http URL passes but picks up
the insecure-protocol warning; and with a non-empty `allowedDomains` list it
is valid exactly when the hostname matches one of the domains
case-insensitively or as a `.domain` suffix (concretely,
`https://sub.github.com` against `["github.com"]` is valid). -/
theorem c6_validateUrl :
    (∀ url ds, isBlank url = true →
      validateUrl url ds = ⟨false, [.urlEmpty], []⟩) ∧
    (∀ url ds, isBlank url = false → parseUrl url = none →
      validateUrl url ds = ⟨false, [.urlBadFormat url], []⟩) ∧
    (∀ url ds p, parseUrl url = some p → p.protocol ≠ "http:" →
      p.protocol ≠ "https:" →
      validateUrl url ds = ⟨false, [.urlBadProtocol p.protocol], []⟩) ∧
    validateUrl "ftp://x.com" none = ⟨false, [.urlBadProtocol "ftp:"], []⟩ ∧
    validateUrl "http://x.com" none = ⟨true, [], [.urlInsecure]⟩ ∧
    (∀ url p a ds, parseUrl url = some p →
      (p.protocol = "http:" ∨ p.protocol = "https:") →
      ((validateUrl url (some (a :: ds))).valid = true ↔
        hostAllowed p.hostname (a :: ds) = true)) ∧
    validateUrl "https://sub.github.com" (some ["github.com"]) = ⟨true, [], []⟩ := by
  refine ⟨?_, ?_, ?_, by decide, by decide, ?_, by decide⟩
  · intro url ds h
    simp [validateUrl, h, addError, emptyResult]
  · intro url ds h1 h2
    simp [validateUrl, h1, h2, addError, emptyResult]
  · intro url ds p hp h1 h2
    simp [validateUrl, parseUrl_not_blank url p hp, hp, h1, h2, addError,
          emptyResult]
  · intro url p a ds hp hpr
    have hb := parseUrl_not_blank url p hp
    have hc : ¬ (p.protocol ≠ "http:" ∧ p.protocol ≠ "https:") := by
      rcases hpr with h | h <;> simp [h]
    by_cases hh : hostAllowed p.hostname (a :: ds) = true <;>
      rcases hpr with h | h <;>
      simp [validateUrl, hb, hp, hc, h, hh, addError, addWarning, emptyResult]

/-- Witness for C6, instantiating the blank-URL clause at `" "`. -/
theorem c6_witness : validateUrl " " none = ⟨false, [.urlEmpty], []⟩ :=
  c6_validateUrl.1 " " none (by decide)

theorem loadSeg_errIndex (i : Nat) (s : JsSeg) (e : LoadErr)
    (h : loadSeg i s = .error e) : errIndex e = some i := by
  unfold loadSeg at h
  repeat' split at h
  all_goals first
    | (injection h with h2; subst h2; rfl)
    | injection h

theorem loadSeg_errField (i : Nat) (f : SegFields) (e : LoadErr)
    (h : loadSeg i (.obj f) = .error e) : ∃ fld, errField e = some fld := by
  unfold loadSeg at h
  repeat' split at h
  all_goals first
    | (injection h with h2; subst h2; exact ⟨_, rfl⟩)
    | simp_all

theorem loadSeg_ok_iff (i : Nat) (s : JsSeg) :
    (∃ seg, loadSeg i s = .ok seg) ↔ segOkL s = true := by
  rcases s with _ | _ | ⟨T, A, R, C, S, E⟩ <;>
    try (simp [loadSeg, segOkL]; done)
  rcases T with (tq | _ | _ | _) | ts | _ | _ <;>
    try (simp [loadSeg, segOkL]; done)
  by_cases ht : tq ≤ 0
  · simp [loadSeg, segOkL, ht]
  rcases A with an | as2 | _ | _ <;> try (simp [loadSeg, segOkL, ht]; done)
  rcases R with (rq | _ | _ | _) | rs | _ | _ <;>
    try (simp [loadSeg, segOkL, ht]; done)
  by_cases hr : rq < 0 ∨ rq > 20
  · simp [loadSeg, segOkL, ht, hr]
  rcases C with (cq | _ | _ | _) | cs | _ | _ <;>
    try (simp [loadSeg, segOkL, ht, hr]; done)
  by_cases hc : cq < 0 ∨ cq > 150
  · simp [loadSeg, segOkL, ht, hr, hc]
  rcases S with sn | ss | _ | _ <;>
    try (simp [loadSeg, segOkL, ht, hr, hc]; done)
  rcases E with (eq2 | _ | _ | _) | es | _ | _ <;>
    try (simp [loadSeg, segOkL, ht, hr, hc]; done)
  by_cases he : eq2 < 0
  · simp [loadSeg, segOkL, ht, hr, hc, he]
  · simp [loadSeg, segOkL, ht, hr, hc, he]

theorem loadSegs_ok_iff (items : List JsSeg) (i : Nat) :
    (∃ segs, loadSegs i items = .ok segs) ↔ ∀ s ∈ items, segOkL s = true := by
  induction items generalizing i with
  | nil => simp [loadSegs]
  | cons s rest ih =>
    constructor
    · rintro ⟨segs, h⟩
      simp only [loadSegs] at h
      cases hs : loadSeg i s with
      | error e => rw [hs] at h; cases h
      | ok seg =>
        rw [hs] at h
        cases hr : loadSegs (i + 1) rest with
        | error e => rw [hr] at h; cases h
        | ok segs2 =>
          have h1 : segOkL s = true := (loadSeg_ok_iff i s).mp ⟨seg, hs⟩
          have h2 := (ih (i + 1)).mp ⟨segs2, hr⟩
          intro x hx
          rcases List.mem_cons.mp hx with rfl | hx2
          · exact h1
          · exact h2 x hx2
    · intro hall
      rcases (loadSeg_ok_iff i s).mpr (hall s (by simp)) with ⟨seg, hs⟩
      rcases (ih (i + 1)).mpr (fun x hx => hall x (by simp [hx])) with ⟨segs2, hr⟩
      exact ⟨seg :: segs2, by simp [loadSegs, hs, hr]⟩

/-- Claim C8: `loadWorkoutDetails` throws on an empty parsed array; every
per-segment error names the offending index (and, for an object with a bad
field, a field name); it succeeds exactly on non-empty arrays whose every
element passes `segOkL` (required fields present with the right primitive
type, `Time > 0`, `Resistance` in [0, 20], `Cadence` in [0, 150],
`Elapsed Time ≥ 0`); and the concrete final conjunct shows the accepted
output has no upper `Elapsed Time` bound and no cross-segment consistency
requirement (`Elapsed Time = 500 ≠ Time = 5` loads fine). -/
theorem c8_loadWorkoutDetails :
    loadWorkoutDetails (.arr []) = .error .emptyDetails ∧
    (∀ items, items ≠ [] →
      ((∃ segs, loadWorkoutDetails (.arr items) = .ok segs) ↔
        ∀ s ∈ items, segOkL s = true)) ∧
    (∀ i s e, loadSeg i s = .error e → errIndex e = some i) ∧
    (∀ i f e, loadSeg i (.obj f) = .error e → ∃ fld, errField e = some fld) ∧
    loadWorkoutDetails (.arr [.obj ⟨.num (.fin 5), .str "Warm-up",
        .num (.fin 10), .num (.fin 90), .str "", .num (.fin 500)⟩])
      = .ok [⟨.fin 5, "Warm-up", .fin 10, .fin 90, "", .fin 500⟩] := by
  refine ⟨rfl, ?_, loadSeg_errIndex, loadSeg_errField, by decide⟩
  intro items hne
  cases items with
  | nil => exact absurd rfl hne
  | cons s rest => exact loadSegs_ok_iff (s :: rest) 0

/-- Witness for C8, instantiating the success characterisation at a
concrete one-segment array. -/
theorem c8_witness :
    ∃ segs, loadWorkoutDetails (.arr [.obj ⟨.num (.fin 5), .str "Warm-up",
        .num (.fin 10), .num (.fin 90), .str "", .num (.fin 500)⟩])
      = .ok segs :=
  ((c8_loadWorkoutDetails.2.1 [.obj ⟨.num (.fin 5), .str "Warm-up",
      .num (.fin 10), .num (.fin 90), .str "", .num (.fin 500)⟩]
      (by decide)).mpr (by decide))

theorem loadSeg_fetchSeg (i : Nat) (s : JsSeg) (seg : WorkoutSegment)
    (h : loadSeg i s = .ok seg) : fetchSeg i s = .ok seg := by
  rcases s with _ | _ | ⟨T, A, R, C, S, E⟩ <;> try (simp [loadSeg] at h; done)
  rcases T with (tq | _ | _ | _) | ts | _ | _ <;>
    try (simp [loadSeg] at h; done)
  by_cases ht : tq ≤ 0
  · simp [loadSeg, ht] at h
  rcases A with an | as2 | _ | _ <;> try (simp [loadSeg, ht] at h; done)
  rcases R with (rq | _ | _ | _) | rs | _ | _ <;>
    try (simp [loadSeg, ht] at h; done)
  by_cases hr : rq < 0 ∨ rq > 20
  · simp [loadSeg, ht, hr] at h
  rcases C with (cq | _ | _ | _) | cs | _ | _ <;>
    try (simp [loadSeg, ht, hr] at h; done)
  by_cases hc : cq < 0 ∨ cq > 150
  · simp [loadSeg, ht, hr, hc] at h
  rcases S with sn | ss | _ | _ <;>
    try (simp [loadSeg, ht, hr, hc] at h; done)
  rcases E with (eq2 | _ | _ | _) | es | _ | _ <;>
    try (simp [loadSeg, ht, hr, hc] at h; done)
  by_cases he : eq2 < 0
  · simp [loadSeg, ht, hr, hc, he] at h
  · simp only [loadSeg, ht, hr, hc, he, if_false, if_neg, Except.ok.injEq] at h
    have hlt : ¬ tq < 0 := by intro hx; exact ht (le_of_lt hx)
    have hne : ¬ tq = 0 := by intro hx; exact ht (le_of_eq hx)
    simp [fetchSeg, jle, jlt, jeqNum, hlt, hne, ← h]

theorem loadSegs_fetchSegs (items : List JsSeg) (i : Nat)
    (segs : List WorkoutSegment) (h : loadSegs i items = .ok segs) :
    fetchSegs i items = .ok segs := by
  induction items generalizing i segs with
  | nil => simpa [loadSegs, fetchSegs] using h
  | cons s rest ih =>
    simp only [loadSegs] at h
    cases hs : loadSeg i s with
    | error e => rw [hs] at h; cases h
    | ok seg =>
      rw [hs] at h
      cases hr : loadSegs (i + 1) rest with
      | error e => rw [hr] at h; cases h
      | ok segs2 =>
        rw [hr] at h
        injection h with h2
        subst h2
        simp [fetchSegs, loadSeg_fetchSeg i s seg hs, ih (i + 1) segs2 hr]

/-- Claim C10: every segment (and segment array) accepted by
`loadWorkoutDetails`'s structural checks is accepted, with the same typed
output, by `fetchWorkoutDetails`'s — and not conversely: the concrete
segment with `Time = NaN`, `Resistance = 100` and a negative `Elapsed Time`
passes `fetchSeg` (no finiteness and no range checks) but is rejected by
`loadSeg`. -/
theorem c10_fetch_looser :
    (∀ i s seg, loadSeg i s = .ok seg → fetchSeg i s = .ok seg) ∧
    (∀ d segs, loadWorkoutDetails d = .ok segs →
      fetchWorkoutDetails d = .ok segs) ∧
    fetchSeg 0 (.obj ⟨.num .nan, .str "X", .num (.fin 100), .num (.fin 60),
        .str "", .num (.fin (-1))⟩)
      = .ok ⟨.nan, "X", .fin 100, .fin 60, "", .fin (-1)⟩ ∧
    loadSeg 0 (.obj ⟨.num .nan, .str "X", .num (.fin 100), .num (.fin 60),
        .str "", .num (.fin (-1))⟩) = .error (.fieldType 0 "Time") := by
  refine ⟨loadSeg_fetchSeg, ?_, by decide, by decide⟩
  intro d segs h
  cases d with
  | notArray => cases h
  | arr items =>
    cases items with
    | nil => cases h
    | cons s rest =>
      exact loadSegs_fetchSegs (s :: rest) 0 segs h

/-- Witness for C10: the loader-accepted concrete segment of C8 is also
accepted by the fetch-side check with the same typed output. -/
theorem c10_witness :
    fetchSeg 7 (.obj ⟨.num (.fin 5), .str "Warm-up", .num (.fin 10),
        .num (.fin 90), .str "", .num (.fin 500)⟩)
      = .ok ⟨.fin 5, "Warm-up", .fin 10, .fin 90, "", .fin 500⟩ :=
  c10_fetch_looser.1 7 (.obj ⟨.num (.fin 5), .str "Warm-up", .num (.fin 10),
      .num (.fin 90), .str "", .num (.fin 500)⟩)
    ⟨.fin 5, "Warm-up", .fin 10, .fin 90, "", .fin 500⟩ (by decide)

theorem isEmpty_map {α β : Type} (f : α → β) (l : List α) :
    (l.map f).isEmpty = l.isEmpty := by
  cases l <;> simp

theorem resInv_validateUrl (url : String) (ds : Option (List String)) :
    resInv (validateUrl url ds) := by
  unfold validateUrl
  dsimp only
  repeat' split
  all_goals first
    | exact resInv_addError _ _
    | exact resInv_empty
    | exact resInv_addWarning _ _ resInv_empty

theorem validateUrl_errors_of_invalid (s : String) (d : Option (List String))
    (hv : (validateUrl s d).valid = false) :
    (validateUrl s d).errors.isEmpty = false := by
  have := resInv_validateUrl s d
  rw [resInv, hv] at this
  exact this.symm

theorem resInv_validateWorkout (wk : JsWorkout) : resInv (validateWorkout wk) := by
  cases wk with
  | notObject => exact resInv_addError _ _
  | obj T I U =>
    unfold validateWorkout
    rcases T with _ | ts | _ | _ <;>
    rcases I with _ | is2 | _ | _ <;>
    rcases U with _ | us | _ | _ <;>
    dsimp only <;>
    (try split_ifs) <;>
    simp_all [resInv, addError, addWarning, emptyResult, isEmpty_append,
      isEmpty_map, validateUrl_errors_of_invalid]

theorem resInv_validateVideo (v : JsVideo) : resInv (validateVideo v) := by
  cases v with
  | notObject => exact resInv_addError _ _
  | obj T S I V =>
    unfold validateVideo
    rcases T with _ | ts | _ | _ <;>
    rcases S with _ | ss | _ | _ <;>
    rcases I with _ | is2 | _ | _ <;>
    rcases V with _ | vs | _ | _ <;>
    dsimp only <;>
    (try split_ifs) <;>
    simp_all [resInv, addError, addWarning, emptyResult, isEmpty_append,
      isEmpty_map, validateUrl_errors_of_invalid]

theorem resInv_segLoop (items : List JsSeg) (i : Nat) (p : ℚ)
    (r : ValidationResult) (h : segLoop items i p = some r) : resInv r := by
  induction items generalizing i p r with
  | nil =>
    simp only [segLoop, Option.some.injEq] at h
    rw [← h]
    exact resInv_empty
  | cons s rest ih =>
    simp only [segLoop] at h
    cases s with
    | nullish => cases h
    | prim =>
      cases hrec : segLoop rest (i + 1) (p + timeOf .prim) with
      | none => rw [hrec] at h; cases h
      | some rr =>
        rw [hrec] at h
        injection h with h2
        have h1 := resInv_validateSegment .prim i (.fin p)
        have h3 := ih (i + 1) (p + timeOf .prim) rr hrec
        rw [← h2]
        simp [resInv] at h1 h3 ⊢
        simp [isEmpty_append, h1, h3]
    | obj f =>
      cases hrec : segLoop rest (i + 1) (p + timeOf (.obj f)) with
      | none => rw [hrec] at h; cases h
      | some rr =>
        rw [hrec] at h
        injection h with h2
        have h1 := resInv_validateSegment (.obj f) i (.fin p)
        have h3 := ih (i + 1) (p + timeOf (.obj f)) rr hrec
        rw [← h2]
        simp [resInv] at h1 h3 ⊢
        simp [isEmpty_append, h1, h3]

theorem resInv_validateWorkoutDetails (d : JsData) (r : ValidationResult)
    (h : validateWorkoutDetails d = some r) : resInv r := by
  cases d with
  | notArray =>
    simp only [validateWorkoutDetails, Option.some.injEq] at h
    rw [← h]
    exact resInv_addError _ _
  | arr items =>
    cases items with
    | nil =>
      simp only [validateWorkoutDetails, Option.some.injEq] at h
      rw [← h]
      exact resInv_addError _ _
    | cons s0 rest =>
      simp only [validateWorkoutDetails] at h
      cases hloop : segLoop (s0 :: rest) 0 0 with
      | none => rw [hloop] at h; cases h
      | some r0 =>
        rw [hloop] at h
        dsimp only at h
        have h0 := resInv_segLoop (s0 :: rest) 0 0 r0 hloop
        cases ha0 : segActivityVal s0 with
        | none => rw [ha0] at h; cases h
        | some a0 =>
          rw [ha0] at h
          dsimp only at h
          cases hL : (s0 :: rest).getLast? with
          | none => rw [hL] at h; cases h
          | some sL =>
            rw [hL] at h
            dsimp only at h
            cases haL : segActivityVal sL with
            | none => rw [haL] at h; cases h
            | some aL =>
              rw [haL] at h
              dsimp only at h
              rcases a0 with _ | a0s | _ | _ <;>
              rcases aL with _ | aLs | _ | _ <;>
              dsimp only at h <;>
              (try split_ifs at h) <;>
              (injection h with h2) <;>
              rw [← h2] <;>
              first
                | exact h0
                | exact resInv_addWarning _ _ h0
                | exact resInv_addWarning _ _ (resInv_addWarning _ _ h0)

theorem resInv_wLoop (items : List JsWorkout) (r : ValidationResult) (i : Nat)
    (hr : resInv r) : resInv (wLoop r i items) := by
  induction items generalizing r i with
  | nil => exact hr
  | cons w rest ih =>
    apply ih
    have hw := resInv_validateWorkout w
    simp [resInv] at hr hw ⊢
    simp [isEmpty_append, isEmpty_map, hr, hw]

theorem resInv_vLoop (items : List JsVideo) (r : ValidationResult) (i : Nat)
    (hr : resInv r) : resInv (vLoop r i items) := by
  induction items generalizing r i with
  | nil => exact hr
  | cons v rest ih =>
    apply ih
    have hv := resInv_validateVideo v
    simp [resInv] at hr hv ⊢
    simp [isEmpty_append, isEmpty_map, hr, hv]

/-- Claim C9: for all seven validators, the returned `ValidationResult` has
`valid = false` exactly when its `errors` list is non-empty (warnings never
affect `valid`; `validateWorkoutDetails` is stated over the results it
returns, since on arrays containing `null`/`undefined` elements it throws
a `TypeError` instead of returning). -/
theorem c9_valid_iff_no_errors :
    (∀ url ds, (validateUrl url ds).valid = (validateUrl url ds).errors.isEmpty) ∧
    (∀ w, (validateWorkout w).valid = (validateWorkout w).errors.isEmpty) ∧
    (∀ v, (validateVideo v).valid = (validateVideo v).errors.isEmpty) ∧
    (∀ s i p, (validateSegment s i p).valid =
      (validateSegment s i p).errors.isEmpty) ∧
    (∀ d r, validateWorkoutDetails d = some r → r.valid = r.errors.isEmpty) ∧
    (∀ ws, (validateWorkoutsList ws).valid =
      (validateWorkoutsList ws).errors.isEmpty) ∧
    (∀ vs, (validateVideosList vs).valid =
      (validateVideosList vs).errors.isEmpty) := by
  refine ⟨resInv_validateUrl, resInv_validateWorkout, resInv_validateVideo,
    resInv_validateSegment, resInv_validateWorkoutDetails, ?_, ?_⟩
  · intro ws
    cases ws with
    | notArray => exact resInv_addError _ _
    | arr items =>
      apply resInv_wLoop
      split_ifs
      · exact resInv_addWarning _ _ resInv_empty
      · exact resInv_empty
  · intro vs
    cases vs with
    | notArray => exact resInv_addError _ _
    | arr items =>
      apply resInv_vLoop
      split_ifs
      · exact resInv_addWarning _ _ resInv_empty
      · exact resInv_empty

/-- Witness for C9, instantiating the `validateWorkoutDetails` clause at a
concrete one-element array. -/
theorem c9_witness :
    (⟨false, [Msg.segNotObject 0], []⟩ : ValidationResult).valid =
      (⟨false, [Msg.segNotObject 0], []⟩ : ValidationResult).errors.isEmpty :=
  c9_valid_iff_no_errors.2.2.2.2.1 (.arr [.prim])
    ⟨false, [Msg.segNotObject 0], []⟩ (by decide)

theorem segLoop_eq (items : List JsSeg) (i : Nat) (p : ℚ)
    (hnn : ∀ s ∈ items, s ≠ JsSeg.nullish) :
    ∃ r, segLoop items i p = some r ∧ r.errors = errsConcat items i p ∧
      r.valid = (errsConcat items i p).isEmpty := by
  induction items generalizing i p with
  | nil => exact ⟨⟨true, [], []⟩, rfl, rfl, rfl⟩
  | cons s rest ih =>
    have hs : s ≠ JsSeg.nullish := hnn s (by simp)
    rcases ih (i + 1) (p + timeOf s) (fun x hx => hnn x (by simp [hx])) with
      ⟨rr, hr, herr, hval⟩
    refine ⟨⟨(validateSegment s i (.fin p)).valid && rr.valid,
            (validateSegment s i (.fin p)).errors ++ rr.errors,
            (validateSegment s i (.fin p)).warnings ++ rr.warnings⟩, ?_, ?_, ?_⟩
    · simp only [segLoop]
      cases s with
      | nullish => exact absurd rfl hs
      | prim => rw [hr]
      | obj f => rw [hr]
    · simp [errsConcat, herr]
    · have hinv := resInv_validateSegment s i (.fin p)
      rw [resInv] at hinv
      simp [errsConcat, isEmpty_append, hinv, hval]

theorem getLast?_of_ne_nil {α : Type} (l : List α) (h : l ≠ []) :
    ∃ a, l.getLast? = some a ∧ a ∈ l := by
  induction l with
  | nil => exact absurd rfl h
  | cons x rest ih =>
    cases rest with
    | nil => exact ⟨x, rfl, by simp⟩
    | cons y r2 =>
      rcases ih (by simp) with ⟨a, ha, hmem⟩
      exact ⟨a, by rw [List.getLast?_cons_cons]; exact ha, by simp [hmem]⟩

theorem validateWorkoutDetails_some (items : List JsSeg) (hne : items ≠ [])
    (hnn : ∀ s ∈ items, s ≠ JsSeg.nullish) :
    ∃ r, validateWorkoutDetails (.arr items) = some r ∧
      r.errors = errsConcat items 0 0 ∧
      r.valid = (errsConcat items 0 0).isEmpty := by
  cases items with
  | nil => exact absurd rfl hne
  | cons s0 rest =>
    rcases segLoop_eq (s0 :: rest) 0 0 hnn with ⟨r0, hl, herr, hval⟩
    rcases getLast?_of_ne_nil (s0 :: rest) (by simp) with ⟨sL, hL, hmem⟩
    have hs0 : s0 ≠ JsSeg.nullish := hnn s0 (by simp)
    have hsL : sL ≠ JsSeg.nullish := hnn sL hmem
    obtain ⟨a0, ha0⟩ : ∃ a, segActivityVal s0 = some a := by
      cases s0 with
      | nullish => exact absurd rfl hs0
      | prim => exact ⟨_, rfl⟩
      | obj f => exact ⟨_, rfl⟩
    obtain ⟨aL, haL⟩ : ∃ a, segActivityVal sL = some a := by
      cases sL with
      | nullish => exact absurd rfl hsL
      | prim => exact ⟨_, rfl⟩
      | obj f => exact ⟨_, rfl⟩
    simp only [validateWorkoutDetails]
    rw [hl]
    dsimp only
    rw [ha0]
    dsimp only
    rw [hL]
    dsimp only
    rw [haL]
    dsimp only
    rcases a0 with _ | a0s | _ | _ <;> rcases aL with _ | aLs | _ | _ <;>
      dsimp only <;> (try split_ifs) <;>
      exact ⟨_, rfl, by simp [addWarning, herr], by simp [addWarning, hval]⟩

theorem segLoop_noNullish (items : List JsSeg) (i : Nat) (p : ℚ)
    (r : ValidationResult) (h : segLoop items i p = some r) :
    ∀ s ∈ items, s ≠ JsSeg.nullish := by
  induction items generalizing i p r with
  | nil => intro s hs; cases hs
  | cons s rest ih =>
    simp only [segLoop] at h
    cases s with
    | nullish => cases h
    | prim =>
      cases hrec : segLoop rest (i + 1) (p + timeOf .prim) with
      | none => rw [hrec] at h; cases h
      | some rr =>
        intro x hx
        rcases List.mem_cons.mp hx with rfl | hx2
        · simp
        · exact ih (i + 1) (p + timeOf .prim) rr hrec x hx2
    | obj f =>
      cases hrec : segLoop rest (i + 1) (p + timeOf (.obj f)) with
      | none => rw [hrec] at h; cases h
      | some rr =>
        intro x hx
        rcases List.mem_cons.mp hx with rfl | hx2
        · simp
        · exact ih (i + 1) (p + timeOf (.obj f)) rr hrec x hx2

theorem vwd_noNullish (items : List JsSeg) (r : ValidationResult)
    (h : validateWorkoutDetails (.arr items) = some r) :
    ∀ s ∈ items, s ≠ JsSeg.nullish := by
  cases items with
  | nil => intro s hs; cases hs
  | cons s0 rest =>
    simp only [validateWorkoutDetails] at h
    cases hloop : segLoop (s0 :: rest) 0 0 with
    | none => rw [hloop] at h; cases h
    | some r0 => exact segLoop_noNullish (s0 :: rest) 0 0 r0 hloop

theorem errsConcat_middle (pre suf : List JsSeg) (s : JsSeg) (i0 : Nat) (p : ℚ) :
    errsConcat (pre ++ s :: suf) i0 p =
      errsConcat pre i0 p ++
      (validateSegment s (i0 + pre.length) (.fin (p + sumTimes pre))).errors ++
      errsConcat suf (i0 + pre.length + 1) (p + sumTimes pre + timeOf s) := by
  induction pre generalizing i0 p with
  | nil => simp [errsConcat, sumTimes]
  | cons x rest ih =>
    have harith1 : i0 + (rest.length + 1) = i0 + 1 + rest.length := by omega
    have harith2 : i0 + (rest.length + 1) + 1 = i0 + 1 + rest.length + 1 := by
      omega
    have harith3 : p + (timeOf x + sumTimes rest) = p + timeOf x + sumTimes rest := by
      ring
    show errsConcat (x :: (rest ++ s :: suf)) i0 p = _
    simp only [errsConcat]
    rw [ih (i0 + 1) (p + timeOf x)]
    simp only [sumTimes, List.length_cons, List.append_assoc, harith1, harith2,
      harith3]

/-- Claim C2 (amended): take any segment array that `validateWorkoutDetails`
accepts with no errors, and replace one segment's `Elapsed Time` by a wrong
finite value `q` with `0 ≤ q ≤ 120`.  Then validation reports exactly one
error — the elapsed-time consistency error for that segment, citing the
expected value `sumTimes pre + Time` — and every other segment still passes:
the `previousElapsedTime` threaded into each later call is the running sum
of the preceding segments' `Time` fields, which the corruption does not
change.  (A wrong value above 120 instead produces only a warning and no
error at all — see the counterexample to the claim as stated.) -/
theorem c2_single_corruption (pre suf : List JsSeg) (res : ValidationResult)
    (T A R C S E : JsVal) (t q : ℚ)
    (hv : validateWorkoutDetails (.arr (pre ++ .obj ⟨T, A, R, C, S, E⟩ :: suf))
      = some res)
    (he : res.errors = [])
    (ht : T = .num (.fin t))
    (hq0 : 0 ≤ q) (hq120 : q ≤ maxElapsedTime)
    (hqne : q ≠ sumTimes pre + t) :
    ∃ res2, validateWorkoutDetails
        (.arr (pre ++ .obj ⟨T, A, R, C, S, .num (.fin q)⟩ :: suf)) = some res2 ∧
      res2.valid = false ∧
      res2.errors = [.elapsedMismatch pre.length q (.fin (sumTimes pre + t))
        (.fin (sumTimes pre)) t] := by
  have hnn := vwd_noNullish _ res hv
  obtain ⟨r1, h1, herr1, hval1⟩ :=
    validateWorkoutDetails_some (pre ++ .obj ⟨T, A, R, C, S, E⟩ :: suf)
      (by simp) hnn
  have hres : res = r1 := Option.some_injective _ (hv.symm.trans h1)
  have hzero : errsConcat (pre ++ .obj ⟨T, A, R, C, S, E⟩ :: suf) 0 0 = [] := by
    have hre : r1.errors = [] := hres ▸ he
    rw [← herr1]
    exact hre
  rw [errsConcat_middle] at hzero
  obtain ⟨hpm0, hsuf0⟩ := List.append_eq_nil.mp hzero
  obtain ⟨hpre0, hmid0⟩ := List.append_eq_nil.mp hpm0
  rw [validateSegment_obj] at hmid0
  dsimp only at hmid0
  simp only [segErrs] at hmid0
  obtain ⟨hm4, hE0⟩ := List.append_eq_nil.mp hmid0
  obtain ⟨hm3, hS0⟩ := List.append_eq_nil.mp hm4
  obtain ⟨hm2, hC0⟩ := List.append_eq_nil.mp hm3
  obtain ⟨hm1, hR0⟩ := List.append_eq_nil.mp hm2
  obtain ⟨hT0, hA0⟩ := List.append_eq_nil.mp hm1
  have hnn2 : ∀ x ∈ pre ++ JsSeg.obj ⟨T, A, R, C, S, .num (.fin q)⟩ :: suf,
      x ≠ JsSeg.nullish := by
    intro x hx
    rcases List.mem_append.mp hx with hx | hx
    · exact hnn x (List.mem_append.mpr (Or.inl hx))
    · rcases List.mem_cons.mp hx with rfl | hx2
      · simp
      · exact hnn x (by simp [hx2])
  obtain ⟨r2, h2, herr2, hval2⟩ :=
    validateWorkoutDetails_some (pre ++ .obj ⟨T, A, R, C, S, .num (.fin q)⟩ :: suf)
      (by simp) hnn2
  have hmid2 : (validateSegment (.obj ⟨T, A, R, C, S, .num (.fin q)⟩)
      (0 + pre.length) (.fin (0 + sumTimes pre))).errors =
      [.elapsedMismatch pre.length q (.fin (sumTimes pre + t))
        (.fin (sumTimes pre)) t] := by
    rw [validateSegment_obj]
    dsimp only
    simp only [segErrs, hT0, hA0, hR0, hC0, hS0, List.nil_append]
    simp [elapsedErrs, ht, not_lt.2 hq0, not_lt.2 hq120, jadd, jeqNum, hqne]
  have htsame : timeOf (JsSeg.obj ⟨T, A, R, C, S, .num (.fin q)⟩)
      = timeOf (JsSeg.obj ⟨T, A, R, C, S, E⟩) := by
    simp [timeOf]
  have hcalc : errsConcat (pre ++ .obj ⟨T, A, R, C, S, .num (.fin q)⟩ :: suf) 0 0
      = [.elapsedMismatch pre.length q (.fin (sumTimes pre + t))
          (.fin (sumTimes pre)) t] := by
    rw [errsConcat_middle, hpre0, hmid2, htsame, hsuf0]
    simp
  exact ⟨r2, h2, by rw [hval2, hcalc]; rfl, by rw [herr2, hcalc]⟩

/-- Counterexample to C2 as stated: in the valid two-segment workout below,
corrupting the first segment's `Elapsed Time` to the wrong value 121
(121 ≠ 0 + 1) produces **no** error for any segment — only a warning — so
no elapsed-time consistency error is reported for the corrupted segment. -/
theorem c2_counterexample :
    validateWorkoutDetails (.arr [.obj ⟨.num (.fin 1), .str "Warm-up",
        .num (.fin 10), .num (.fin 90), .str "", .num (.fin 1)⟩,
      .obj ⟨.num (.fin 1), .str "Cool-down", .num (.fin 10), .num (.fin 90),
        .str "", .num (.fin 2)⟩]) = some ⟨true, [], []⟩ ∧
    validateWorkoutDetails (.arr [.obj ⟨.num (.fin 1), .str "Warm-up",
        .num (.fin 10), .num (.fin 90), .str "", .num (.fin 121)⟩,
      .obj ⟨.num (.fin 1), .str "Cool-down", .num (.fin 10), .num (.fin 90),
        .str "", .num (.fin 2)⟩]) = some ⟨true, [], [.elapsedTooBig 0 121]⟩ ∧
    (121 : ℚ) ≠ 0 + 1 := by decide

/-- Witness for the amended C2: corrupting the first segment of a concrete
valid two-segment workout to `Elapsed Time = 50` yields exactly one
consistency error, for that segment. -/
theorem c2_witness :
    ∃ res2, validateWorkoutDetails (.arr ([] ++ .obj ⟨.num (.fin 1),
        .str "Warm-up", .num (.fin 10), .num (.fin 90), .str "",
        .num (.fin 50)⟩ :: [.obj ⟨.num (.fin 1), .str "Cool-down",
        .num (.fin 10), .num (.fin 90), .str "", .num (.fin 2)⟩]))
      = some res2 ∧
      res2.valid = false ∧
      res2.errors = [.elapsedMismatch (List.length ([] : List JsSeg)) 50
        (.fin (sumTimes [] + 1)) (.fin (sumTimes [])) 1] :=
  c2_single_corruption [] [.obj ⟨.num (.fin 1), .str "Cool-down",
      .num (.fin 10), .num (.fin 90), .str "", .num (.fin 2)⟩]
    ⟨true, [], []⟩ (.num (.fin 1)) (.str "Warm-up") (.num (.fin 10))
    (.num (.fin 90)) (.str "") (.num (.fin 1)) 1 50
    (by decide) rfl rfl (by norm_num) (by norm_num [maxElapsedTime])
    (by norm_num [sumTimes])

theorem loadSeg_baseOk (i : Nat) (s : JsSeg) (seg : WorkoutSegment)
    (h : loadSeg i s = .ok seg) : baseOk seg := by
  rcases s with _ | _ | ⟨T, A, R, C, S, E⟩ <;> try (simp [loadSeg] at h; done)
  rcases T with (tq | _ | _ | _) | ts | _ | _ <;>
    try (simp [loadSeg] at h; done)
  by_cases ht : tq ≤ 0
  · simp [loadSeg, ht] at h
  rcases A with an | as2 | _ | _ <;> try (simp [loadSeg, ht] at h; done)
  rcases R with (rq | _ | _ | _) | rs | _ | _ <;>
    try (simp [loadSeg, ht] at h; done)
  by_cases hr : rq < 0 ∨ rq > 20
  · simp [loadSeg, ht, hr] at h
  rcases C with (cq | _ | _ | _) | cs | _ | _ <;>
    try (simp [loadSeg, ht, hr] at h; done)
  by_cases hc : cq < 0 ∨ cq > 150
  · simp [loadSeg, ht, hr, hc] at h
  rcases S with sn | ss | _ | _ <;>
    try (simp [loadSeg, ht, hr, hc] at h; done)
  rcases E with (eq2 | _ | _ | _) | es | _ | _ <;>
    try (simp [loadSeg, ht, hr, hc] at h; done)
  by_cases he2 : eq2 < 0
  · simp [loadSeg, ht, hr, hc, he2] at h
  · simp only [loadSeg, ht, hr, hc, he2, if_false, if_neg,
      Except.ok.injEq] at h
    push_neg at hr hc
    rw [← h]
    exact ⟨⟨tq, rfl, not_le.mp ht⟩, ⟨rq, rfl, hr.1, hr.2⟩,
      ⟨cq, rfl, hc.1, hc.2⟩, ⟨eq2, rfl, not_lt.mp he2⟩⟩

theorem loadSegs_shape (items : List JsSeg) (i : Nat)
    (segs : List WorkoutSegment) (h : loadSegs i items = .ok segs) :
    segs.length = items.length ∧ ∀ s ∈ segs, baseOk s := by
  induction items generalizing i segs with
  | nil =>
    simp only [loadSegs, Except.ok.injEq] at h
    rw [← h]
    exact ⟨rfl, by intro s hs; cases hs⟩
  | cons x rest ih =>
    simp only [loadSegs] at h
    cases hx : loadSeg i x with
    | error e => rw [hx] at h; cases h
    | ok seg =>
      rw [hx] at h
      cases hrec : loadSegs (i + 1) rest with
      | error e => rw [hrec] at h; cases h
      | ok segs2 =>
        rw [hrec] at h
        injection h with h2
        obtain ⟨hlen, hall⟩ := ih (i + 1) segs2 hrec
        constructor
        · rw [← h2]; simp [hlen]
        · intro s hs
          rw [← h2] at hs
          rcases List.mem_cons.mp hs with rfl | hs2
          · exact loadSeg_baseOk i x s hx
          · exact hall s hs2

theorem loadWorkoutDetails_shape (d : JsData) (segs : List WorkoutSegment)
    (h : loadWorkoutDetails d = .ok segs) :
    segs ≠ [] ∧ ∀ s ∈ segs, baseOk s := by
  cases d with
  | notArray => cases h
  | arr items =>
    cases items with
    | nil => cases h
    | cons x rest =>
      obtain ⟨hlen, hall⟩ := loadSegs_shape (x :: rest) 0 segs h
      refine ⟨?_, hall⟩
      intro hcon
      rw [hcon] at hlen
      simp at hlen

theorem strict_errsConcat (segs : List WorkoutSegment) (i : Nat) (p : ℚ)
    (hbase : ∀ s ∈ segs, baseOk s) (hstrict : strictOk p segs) :
    errsConcat (segs.map segToJs) i p = [] := by
  induction segs generalizing i p with
  | nil => rfl
  | cons s rest ih =>
    obtain ⟨⟨t, hT, ht0⟩, ⟨rq, hR, hr0, hr20⟩, ⟨cq, hC, hc0, hc150⟩,
      ⟨ev, hE, he0⟩⟩ := hbase s (by simp)
    simp only [strictOk] at hstrict
    rw [hT] at hstrict
    dsimp only at hstrict
    obtain ⟨ht1, hres, hcad, hact, helap, hrest⟩ := hstrict
    rw [hR] at hres
    dsimp only at hres
    rw [hC] at hcad
    dsimp only at hcad
    have hev : ev = p + t := by
      have hf := hE.symm.trans helap
      injection hf
    have hmid : (validateSegment (segToJs s) i (.fin p)).errors = [] := by
      simp only [segToJs]
      rw [validateSegment_obj]
      dsimp only
      simp [segErrs, timeErrs, actErrs, resErrs, cadErrs, strokeErrs,
        elapsedErrs, hT, hR, hC, hE, hact, minTime, maxTime, minResistance,
        maxResistance, minCadence, maxCadence, maxElapsedTime, ht1, hres,
        hr20, hcad, hc150, not_lt.2 ht1, not_lt.2 hres, not_lt.2 hr20,
        not_lt.2 hcad, not_lt.2 hc150, not_lt.2 he0, ← hev, he0, jadd,
        jeqNum]
    have htime : timeOf (segToJs s) = t := by simp [timeOf, segToJs, hT]
    show errsConcat (segToJs s :: rest.map segToJs) i p = []
    simp only [errsConcat, hmid, htime, List.nil_append]
    exact ih (i + 1) (p + t) (fun x hx => hbase x (by simp [hx])) hrest

/-- Claim C3 (amended): if `loadWorkoutDetails` accepts a parsed value and
the returned typed segments additionally satisfy the validator's stricter
requirements — `Time ≥ 1`, non-blank `Activity`, `Resistance ≥ 1`,
`Cadence ≥ 30`, and each `Elapsed Time` exactly the running sum of the
`Time` fields — then validating the loaded structure yields `valid = true`
with no errors (warnings may remain). -/
theorem c3_roundtrip (d : JsData) (segs : List WorkoutSegment)
    (hload : loadWorkoutDetails d = .ok segs)
    (hstrict : strictOk 0 segs) :
    ∃ r, validateWorkoutDetails (.arr (segs.map segToJs)) = some r ∧
      r.valid = true ∧ r.errors = [] := by
  obtain ⟨hne, hbase⟩ := loadWorkoutDetails_shape d segs hload
  have hnn : ∀ x ∈ segs.map segToJs, x ≠ JsSeg.nullish := by
    intro x hx
    rcases List.mem_map.mp hx with ⟨s, _, rfl⟩
    simp [segToJs]
  have hmapne : segs.map segToJs ≠ [] := by
    intro hcon
    exact hne (List.map_eq_nil.mp hcon)
  obtain ⟨r, hr, herr, hval⟩ := validateWorkoutDetails_some _ hmapne hnn
  have hzero := strict_errsConcat segs 0 0 hbase hstrict
  exact ⟨r, hr, by rw [hval, hzero]; rfl, by rw [herr, hzero]⟩

/-- Counterexample to C3 as stated: `loadWorkoutDetails` accepts the
one-segment array below (`Time = 1/2 > 0`, `Resistance = 0 ∈ [0,20]`,
`Cadence = 0 ∈ [0,150]`, blank `Activity`, `Elapsed Time = 7 ≥ 0`), yet
validating the loaded structure is invalid: the validator additionally
requires `Time ≥ 1`, a non-blank `Activity`, `Resistance ≥ 1`,
`Cadence ≥ 30` and elapsed-time consistency (7 ≠ 0 + 1/2). -/
theorem c3_counterexample :
    loadWorkoutDetails (.arr [.obj ⟨.num (.fin (1/2)), .str "",
        .num (.fin 0), .num (.fin 0), .str "", .num (.fin 7)⟩])
      = .ok [⟨.fin (1/2), "", .fin 0, .fin 0, "", .fin 7⟩] ∧
    (validateWorkoutDetails (.arr (List.map segToJs
        ([⟨.fin (1/2), "", .fin 0, .fin 0, "", .fin 7⟩] :
          List WorkoutSegment)))).map ValidationResult.valid
      = some false := by decide

/-- Witness for the amended C3 at a concrete strictly-consistent workout. -/
theorem c3_witness :
    ∃ r, validateWorkoutDetails (.arr (List.map segToJs
        ([⟨.fin 5, "Warm-up", .fin 10, .fin 90, "", .fin 5⟩] :
          List WorkoutSegment))) = some r ∧
      r.valid = true ∧ r.errors = [] :=
  c3_roundtrip (.arr [.obj ⟨.num (.fin 5), .str "Warm-up", .num (.fin 10),
      .num (.fin 90), .str "", .num (.fin 5)⟩])
    [⟨.fin 5, "Warm-up", .fin 10, .fin 90, "", .fin 5⟩]
    (by decide)
    (by simp [strictOk, isBlank]; norm_num)
